import Mathlib

/-!
Verification of the rail-dispatch simulation kernel.

This file is a shallow embedding, in Lean 4, of the parts of the Rust source
under `src/` that the specification claims speak about:

* `src/simulation/block.rs` — the block registry (`BlockMap`), its chunked
  sparse lookup, the occupancy tracker (`BlockTracker`), the walk iterator
  (`TrackWalker`), signal lookup (`lookup_signal`), the affected-signal search
  and `process_updates`;
* `src/simulation/sparse_vec.rs` — the generic chunked sparse vector
  (`SparseVec`), whose lookup code is duplicated inside `BlockMap`;
* `src/simulation/messages.rs` — block/lamp update messages;
* `src/simulation/signal.rs` — speed limits, aspects and `SpeedControl`;
* `src/simulation/train.rs` — train physics and the per-tick target-speed
  selection in `Train::update`.

Modelling conventions:

* `f64` values are modelled as `ℚ` (all constants in the claims are exact
  decimals; no claim depends on floating-point rounding).  The `f64::NAN`
  marker the walker stores into `offset_m` is modelled as `Option ℚ = none`.
* Rust hash maps are modelled as functions into `Option _`; a `HashSet` is a
  duplicate-free list.  A `Vec` is a `List`.
* Rust iterators that can run forever (the `length = ∞` walks) are modelled
  as fuel-indexed recursions; `none` marks fuel exhaustion.
* A Rust `panic!` / `.expect(..)` / `unreachable!` on the modelled paths is
  an explicit result constructor (`WalkStep.panic`, `LookupRes.panicked`)
  where a claim is about panicking, and is documented at each definition
  otherwise.
-/

/-- `Direction` from `common.rs`: `Even` traverses `next`, `Odd` traverses
`prev`. -/
inductive Direction where
  | Even
  | Odd
deriving DecidableEq, Repr

/-- `Direction::reverse` from `common.rs`. -/
def Direction.reverse : Direction → Direction
  | .Even => .Odd
  | .Odd => .Even

/-- `Direction::apply_sign` from `common.rs`: identity for `Even`, negation
for `Odd`. -/
def Direction.applySign (d : Direction) (x : ℚ) : ℚ :=
  match d with
  | .Even => x
  | .Odd => -x

/-- `TrackPoint` from `block.rs`: a block id and an offset (metres) into the
block. -/
structure TrackPoint where
  block_id : ℕ
  offset_m : ℚ
deriving DecidableEq, Repr

/-- `Block` from `block.rs` (the `id`/`length_m`/`lamp_id`/`prev`/`next`
record). -/
structure Block where
  id : ℕ
  length_m : ℚ
  lamp_id : ℕ
  prev : Option ℕ := none
  next : Option ℕ := none
deriving DecidableEq, Repr

/-- `Chunk` from `sparse_vec.rs` / `block.rs`: the first id of a run of
consecutive ids, and the index in the item vector where the run starts. -/
structure SVChunk where
  start_id : ℕ
  start_index : ℕ
deriving DecidableEq, Repr

/-! ## Occupancy tracker (`BlockTracker` in `block.rs`)

`blocks: HashMap<BlockId, Vec<TrainId>>` is modelled as
`ℕ → Option (List ℕ)` (`none` = no entry in the hash map — `set_freed`
distinguishes a missing entry from an empty vector) and
`trains: HashMap<TrainId, HashSet<BlockId>>` as `ℕ → Option (List ℕ)` with
set semantics (insertion is a no-op when the element is present). -/

structure BlockTracker where
  blocks : ℕ → Option (List ℕ)
  trains : ℕ → Option (List ℕ)

/-- The empty tracker (`BlockTracker::default`). -/
def emptyTracker : BlockTracker :=
  { blocks := fun _ => none, trains := fun _ => none }

/-- `BlockTracker::is_block_free`: true when the block has no entry or an
empty train vector (`is_none_or(|v| v.is_empty())`). -/
def isBlockFree (s : BlockTracker) (block_id : ℕ) : Bool :=
  match s.blocks block_id with
  | none => true
  | some v => v.isEmpty

/-- `HashSet::insert` on the modelled duplicate-free list: append the element
only when absent. -/
def insertSet (l : List ℕ) (x : ℕ) : List ℕ :=
  if x ∈ l then l else l ++ [x]

/-- `BlockTracker::set_occupied`: push the train onto the block's train
vector (`entry.push(train_id)`, unconditionally — duplicates are possible),
insert the block into the train's block set, and return whether the vector
now has exactly one element (`entry.len() == 1`, i.e. the block was
previously free). -/
def setOccupied (s : BlockTracker) (block_id train_id : ℕ) :
    BlockTracker × Bool :=
  let entry := ((s.blocks block_id).getD []) ++ [train_id]
  let blocks' := fun b => if b = block_id then some entry else s.blocks b
  let trains' := fun t =>
    if t = train_id then some (insertSet ((s.trains train_id).getD []) block_id)
    else s.trains t
  (⟨blocks', trains'⟩, entry.length = 1)

/-- `BlockTracker::set_freed`: remove the block from the train's block set if
that train has an entry, then — only if the block has an entry — retain the
other trains in the block's vector and return whether it is now empty.  A
block with no entry leaves the blocks map untouched and returns `false`
(`map_or(false, ..)`). -/
def setFreed (s : BlockTracker) (block_id train_id : ℕ) :
    BlockTracker × Bool :=
  let trains' := fun t =>
    if t = train_id then (s.trains train_id).map (fun v => v.filter (· ≠ block_id))
    else s.trains t
  match s.blocks block_id with
  | none => (⟨s.blocks, trains'⟩, false)
  | some v =>
    let v' := v.filter (· ≠ train_id)
    let blocks' := fun b => if b = block_id then some v' else s.blocks b
    (⟨blocks', trains'⟩, v'.isEmpty)

/-- `BlockTracker::despawn_train`: remove the train's entry, then call
`set_freed` for every block it held. -/
def despawnTrain (s : BlockTracker) (train_id : ℕ) : BlockTracker :=
  match s.trains train_id with
  | none => s
  | some bs =>
    let s' : BlockTracker :=
      ⟨s.blocks, fun t => if t = train_id then none else s.trains t⟩
    bs.foldl (fun st b => (setFreed st b train_id).1) s'

/-- States of the tracker reachable by any sequence of `set_occupied`,
`set_freed` and `despawn_train` operations from the empty tracker. -/
inductive ReachableTracker : BlockTracker → Prop where
  | empty : ReachableTracker emptyTracker
  | occupy (s : BlockTracker) (b t : ℕ) :
      ReachableTracker s → ReachableTracker (setOccupied s b t).1
  | free (s : BlockTracker) (b t : ℕ) :
      ReachableTracker s → ReachableTracker (setFreed s b t).1
  | despawn (s : BlockTracker) (t : ℕ) :
      ReachableTracker s → ReachableTracker (despawnTrain s t)

/-- Mutual consistency of the two tracker maps: a block is in a train's block
set exactly when the train is in the block's train vector. -/
def TrackerConsistent (s : BlockTracker) : Prop :=
  ∀ b t : ℕ, b ∈ (s.trains t).getD [] ↔ t ∈ (s.blocks b).getD []


/-! ### Helper lemmas about the tracker operations -/

theorem optionMapSomeGetD {α β : Type} (f : α → β) (a : α) (d : β) :
    ((some a).map f).getD d = f a := rfl

theorem optionMapSome {α β : Type} (f : α → β) (a : α) :
    (some a).map f = some (f a) := rfl

theorem trackerEq (a b : BlockTracker) (h1 : a.blocks = b.blocks)
    (h2 : a.trains = b.trains) : a = b := by
  cases a; cases b; simp_all

theorem mem_insertSet (l : List ℕ) (x y : ℕ) :
    x ∈ insertSet l y ↔ x ∈ l ∨ x = y := by
  unfold insertSet
  by_cases h : y ∈ l
  · rw [if_pos h]
    constructor
    · exact fun hx => Or.inl hx
    · rintro (hx | rfl)
      · exact hx
      · exact h
  · rw [if_neg h]
    simp

theorem mem_filter_ne (l : List ℕ) (x t : ℕ) :
    x ∈ l.filter (· ≠ t) ↔ x ∈ l ∧ x ≠ t := by
  simp [List.mem_filter]

theorem filter_ne_idem (l : List ℕ) (t : ℕ) :
    (l.filter (· ≠ t)).filter (· ≠ t) = l.filter (· ≠ t) := by
  apply List.filter_eq_self.mpr
  intro a ha
  have h2 := (mem_filter_ne l a t).mp ha
  simpa using h2.2

theorem setOccupied_blocks (s : BlockTracker) (b t b0 : ℕ) :
    (setOccupied s b t).1.blocks b0 =
      if b0 = b then some ((s.blocks b).getD [] ++ [t]) else s.blocks b0 := rfl

theorem setOccupied_trains (s : BlockTracker) (b t τ : ℕ) :
    (setOccupied s b t).1.trains τ =
      if τ = t then some (insertSet ((s.trains t).getD []) b)
      else s.trains τ := rfl

theorem setFreed_blocks (s : BlockTracker) (b t b0 : ℕ) :
    (setFreed s b t).1.blocks b0 =
      if b0 = b then (s.blocks b).map (fun v => v.filter (· ≠ t))
      else s.blocks b0 := by
  unfold setFreed
  cases hsb : s.blocks b with
  | none =>
    by_cases hb : b0 = b
    · subst hb; simp [hsb]
    · simp [if_neg hb]
  | some v =>
    by_cases hb : b0 = b
    · subst hb; simp [hsb]
    · simp [if_neg hb]

theorem setFreed_trains (s : BlockTracker) (b t τ : ℕ) :
    (setFreed s b t).1.trains τ =
      if τ = t then (s.trains t).map (fun v => v.filter (· ≠ b))
      else s.trains τ := by
  unfold setFreed
  cases s.blocks b <;> rfl

theorem consistent_empty : TrackerConsistent emptyTracker := by
  intro b t
  simp [emptyTracker]

theorem consistent_setOccupied (s : BlockTracker) (b t : ℕ)
    (h : TrackerConsistent s) : TrackerConsistent (setOccupied s b t).1 := by
  intro b0 t0
  rw [setOccupied_trains, setOccupied_blocks]
  by_cases ht : t0 = t <;> by_cases hb : b0 = b
  · subst ht; subst hb
    simp [mem_insertSet]
  · subst ht
    rw [if_pos rfl, if_neg hb]
    simp only [Option.getD_some]
    rw [mem_insertSet]
    simp only [hb, or_false]
    exact h b0 t0
  · subst hb
    rw [if_neg ht, if_pos rfl]
    simp only [Option.getD_some, List.mem_append, List.mem_singleton]
    simp only [ht, or_false]
    exact h b0 t0
  · rw [if_neg ht, if_neg hb]
    exact h b0 t0

theorem consistent_setFreed (s : BlockTracker) (b t : ℕ)
    (h : TrackerConsistent s) : TrackerConsistent (setFreed s b t).1 := by
  intro b0 t0
  rw [setFreed_trains, setFreed_blocks]
  by_cases ht : t0 = t <;> by_cases hb : b0 = b
  · subst ht; subst hb
    cases s.trains t0 <;> cases s.blocks b0 <;>
      simp [mem_filter_ne]
  · subst ht
    rw [if_pos rfl, if_neg hb]
    cases hst : s.trains t0 with
    | none =>
      have h2 := h b0 t0
      rw [hst] at h2
      simpa using h2
    | some l =>
      rw [optionMapSomeGetD]
      rw [mem_filter_ne]
      simp only [ne_eq, hb, not_false_eq_true, and_true]
      have h2 := h b0 t0
      rw [hst] at h2
      exact h2
  · subst hb
    rw [if_neg ht, if_pos rfl]
    cases hsb : s.blocks b0 with
    | none =>
      have h2 := h b0 t0
      rw [hsb] at h2
      simpa using h2
    | some v =>
      rw [optionMapSomeGetD]
      rw [mem_filter_ne]
      simp only [ne_eq, ht, not_false_eq_true, and_true]
      have h2 := h b0 t0
      rw [hsb] at h2
      exact h2
  · rw [if_neg ht, if_neg hb]
    exact h b0 t0

theorem foldFreed_blocks (t : ℕ) (bs : List ℕ) (st : BlockTracker) (b : ℕ) :
    (bs.foldl (fun s0 b0 => (setFreed s0 b0 t).1) st).blocks b =
      if b ∈ bs then (st.blocks b).map (fun v => v.filter (· ≠ t))
      else st.blocks b := by
  induction bs generalizing st with
  | nil => simp
  | cons a rest ih =>
    simp only [List.foldl_cons]
    rw [ih]
    by_cases hmem : b ∈ rest
    · rw [if_pos hmem, if_pos (List.mem_cons.mpr (Or.inr hmem))]
      rw [setFreed_blocks]
      by_cases hb : b = a
      · subst hb
        rw [if_pos rfl]
        cases st.blocks b <;> simp [filter_ne_idem]
      · rw [if_neg hb]
    · rw [if_neg hmem]
      rw [setFreed_blocks]
      by_cases hb : b = a
      · subst hb
        rw [if_pos rfl, if_pos (List.mem_cons.mpr (Or.inl rfl))]
      · rw [if_neg hb,
          if_neg (by rw [List.mem_cons]; rintro (h2 | h2); exact hb h2; exact hmem h2)]

theorem foldFreed_trains (t : ℕ) (bs : List ℕ) (st : BlockTracker)
    (h : st.trains t = none) :
    ∀ τ, (bs.foldl (fun s0 b0 => (setFreed s0 b0 t).1) st).trains τ =
      st.trains τ := by
  induction bs generalizing st with
  | nil => intro τ; rfl
  | cons a rest ih =>
    intro τ
    simp only [List.foldl_cons]
    rw [ih _ (by rw [setFreed_trains]; simp [h])]
    rw [setFreed_trains]
    by_cases ht : τ = t
    · subst ht; simp [h]
    · rw [if_neg ht]

theorem consistent_despawn (s : BlockTracker) (t : ℕ)
    (h : TrackerConsistent s) : TrackerConsistent (despawnTrain s t) := by
  unfold despawnTrain
  cases hst : s.trains t with
  | none => exact h
  | some bs =>
    intro b0 t0
    have hblocks := foldFreed_blocks t bs
      ⟨s.blocks, fun τ => if τ = t then none else s.trains τ⟩ b0
    have htrains := foldFreed_trains t bs
      ⟨s.blocks, fun τ => if τ = t then none else s.trains τ⟩ (by simp) t0
    rw [hblocks, htrains]
    simp only
    by_cases ht : t0 = t
    · subst ht
      rw [if_pos rfl]
      simp only [Option.getD_none, List.not_mem_nil, false_iff]
      by_cases hb : b0 ∈ bs
      · rw [if_pos hb]
        cases hv : s.blocks b0 with
        | none => simp
        | some v =>
          rw [optionMapSomeGetD]
          rw [mem_filter_ne]
          rintro ⟨_, hne⟩
          exact hne rfl
      · rw [if_neg hb]
        intro hm
        have h2 := (h b0 t0).mpr hm
        rw [hst] at h2
        exact hb h2
    · rw [if_neg ht]
      by_cases hb : b0 ∈ bs
      · rw [if_pos hb]
        cases hv : s.blocks b0 with
        | none =>
          have h2 := h b0 t0
          rw [hv] at h2
          simpa using h2
        | some v =>
          rw [optionMapSomeGetD]
          rw [mem_filter_ne]
          simp only [ne_eq, ht, not_false_eq_true, and_true]
          have h2 := h b0 t0
          rw [hv] at h2
          exact h2
      · rw [if_neg hb]
        exact h b0 t0

theorem insertSet_idem (l : List ℕ) (x : ℕ) :
    insertSet (insertSet l x) x = insertSet l x := by
  unfold insertSet
  by_cases h : x ∈ l
  · rw [if_pos h, if_pos h]
  · rw [if_neg h, if_pos (by simp)]

/-! ### Claims C3, C5, C7 -/

/-- Claim C3, counterexample: `set_occupied(1, 1)` called twice in a row is
not idempotent — after the second call the block's train vector holds train 1
twice (the `(b, t)` pair is recorded twice), whereas after a single call it
holds it once. -/
theorem claimC3_counterexample :
    ((setOccupied (setOccupied emptyTracker 1 1).1 1 1).1).blocks 1 =
        some [1, 1] ∧
    ((setOccupied emptyTracker 1 1).1).blocks 1 = some [1] :=
  ⟨rfl, rfl⟩

/-- Claim C3 (amended): `set_freed(b, t)` is idempotent — a second identical
call leaves the tracker state exactly as after the first; `set_occupied(b, t)`
is **not** idempotent: a second identical call appends a duplicate entry for
`t` to the block's train vector (so a `(b, t)` pair can be recorded twice in
`blocks`), while the per-train block set stays deduplicated (the `trains` side
is unchanged by the repeat call). -/
theorem claimC3_amended :
    (∀ (s : BlockTracker) (b t : ℕ),
      (setFreed (setFreed s b t).1 b t).1 = (setFreed s b t).1) ∧
    (∀ (s : BlockTracker) (b t : ℕ),
      ((setOccupied (setOccupied s b t).1 b t).1).blocks b =
        some (((s.blocks b).getD []) ++ [t, t])) ∧
    (∀ (s : BlockTracker) (b t : ℕ),
      ((setOccupied (setOccupied s b t).1 b t).1).trains t =
        ((setOccupied s b t).1).trains t) := by
  refine ⟨fun s b t => ?_, fun s b t => ?_, fun s b t => ?_⟩
  · apply trackerEq
    · funext b0
      by_cases hb : b0 = b
      · subst hb
        rw [setFreed_blocks _ b0 t b0, if_pos rfl,
          setFreed_blocks s b0 t b0, if_pos rfl]
        cases s.blocks b0 <;> simp [filter_ne_idem]
      · rw [setFreed_blocks _ b t b0, if_neg hb,
          setFreed_blocks s b t b0, if_neg hb]
    · funext τ
      by_cases ht : τ = t
      · subst ht
        rw [setFreed_trains _ b τ τ, if_pos rfl,
          setFreed_trains s b τ τ, if_pos rfl]
        cases s.trains τ <;> simp [filter_ne_idem]
      · rw [setFreed_trains _ b t τ, if_neg ht,
          setFreed_trains s b t τ, if_neg ht]
  · rw [setOccupied_blocks _ b t b, if_pos rfl,
      setOccupied_blocks s b t b, if_pos rfl]
    simp
  · rw [setOccupied_trains _ b t t, if_pos rfl,
      setOccupied_trains s b t t, if_pos rfl]
    rw [Option.getD_some, insertSet_idem]

/-- Claim C5: evaluating `set_freed(1, 1)` on the empty tracker (block 1 was
never occupied) — the call returns `false` even though the block is free
afterwards, contradicting the claim's (and the function's own doc comment's)
"now-empty" contract. -/
theorem claimC5_eval :
    (setFreed emptyTracker 1 1).2 = false ∧
    isBlockFree (setFreed emptyTracker 1 1).1 1 = true :=
  ⟨rfl, rfl⟩

/-- Claim C7: in every tracker state reachable by any sequence of
`set_occupied`, `set_freed` and `despawn_train`, the two maps are mutually
consistent: `b ∈ trains[t] ⇔ t ∈ blocks[b]`. -/
theorem claimC7_consistency (s : BlockTracker) (h : ReachableTracker s) :
    TrackerConsistent s := by
  induction h with
  | empty => exact consistent_empty
  | occupy s b t _ ih => exact consistent_setOccupied s b t ih
  | free s b t _ ih => exact consistent_setFreed s b t ih
  | despawn s t _ ih => exact consistent_despawn s t ih

/-- Claim C7, witness: the consistency theorem applied at a concrete
reachable state. -/
theorem claimC7_consistency_witness :
    ReachableTracker (setOccupied emptyTracker 1 2).1 ∧
    TrackerConsistent (setOccupied emptyTracker 1 2).1 :=
  ⟨ReachableTracker.occupy _ 1 2 ReachableTracker.empty,
    claimC7_consistency _ (ReachableTracker.occupy _ 1 2 ReachableTracker.empty)⟩

/-! ## Chunked sparse lookup (`sparse_vec.rs`, duplicated in `block.rs`)

`slice::binary_search_by` on the sorted, duplicate-free `chunks` vector is
modelled extensionally: the result is `found c` when some chunk's `start_id`
equals the query and otherwise `insertAt i` with `i` the insertion point
(the number of chunks whose `start_id` is below the query).  On sorted input
this is exactly the contract of the Rust standard-library binary search. -/

inductive ChunkSearch where
  | found (c : SVChunk)
  | insertAt (i : ℕ)
deriving DecidableEq, Repr

def chunksSearch : List SVChunk → ℕ → ChunkSearch
  | [], _ => .insertAt 0
  | c :: rest, q =>
    if q < c.start_id then .insertAt 0
    else if q = c.start_id then .found c
    else
      match chunksSearch rest q with
      | .found c2 => .found c2
      | .insertAt i => .insertAt (i + 1)

/-- `SparseVec::get_item_index` (and the identical
`BlockMap::get_block_index`): on a hit return the chunk's start index, on a
miss with a predecessor chunk extrapolate `start_index + (id − start_id)`
(u32 subtraction, well defined because the predecessor's `start_id` is below
the query), and `None` when the query is below every chunk. -/
def svGetItemIndex (chunks : List SVChunk) (id : ℕ) : Option ℕ :=
  match chunksSearch chunks id with
  | .found c => some c.start_index
  | .insertAt x =>
    if x > 0 then (chunks.get? (x - 1)).map (fun c => c.start_index + (id - c.start_id))
    else none

/-- `SparseVec::get` (and the identical `BlockMap::get_block_by_id`): index
into the item vector and keep the candidate only when its id matches the
query. -/
def svGet {α : Type} (getId : α → ℕ) (chunks : List SVChunk) (items : List α)
    (id : ℕ) : Option α :=
  (svGetItemIndex chunks id).bind fun index =>
    (items.get? index).bind fun candidate =>
      if getId candidate = id then some candidate else none

/-- The `tuple_windows`-based tail of `SparseVec::rebuild_chunks` (also the
chunk construction in `BlockMap::from_iterable`): for every adjacent pair at
positions `(j, j+1)` whose ids do not differ by exactly one (u32
subtraction), emit a chunk starting at position `j+1`.  The first argument is
the position of the head of the remaining list. -/
def chunkTail {α : Type} (getId : α → ℕ) : ℕ → List α → List SVChunk
  | _, [] => []
  | _, [_] => []
  | i, a :: b :: rest =>
    (if getId b - getId a ≠ 1 then [⟨getId b, i + 1⟩] else []) ++
      chunkTail getId (i + 1) (b :: rest)

/-- `SparseVec::rebuild_chunks`: a chunk for the first item plus the
`tuple_windows` tail. -/
def rebuildChunks {α : Type} (getId : α → ℕ) (items : List α) : List SVChunk :=
  match items with
  | [] => []
  | x :: _ => ⟨getId x, 0⟩ :: chunkTail getId 0 items

/-! ### Correctness of the chunked sparse lookup -/

theorem mem_chunkTail {α : Type} (getId : α → ℕ) (k : ℕ) (l : List α)
    (c : SVChunk) :
    c ∈ chunkTail getId k l ↔
      ∃ j a b, l.get? j = some a ∧ l.get? (j + 1) = some b ∧
        getId b - getId a ≠ 1 ∧ c = ⟨getId b, k + j + 1⟩ := by
  induction l generalizing k with
  | nil => simp [chunkTail]
  | cons a0 rest ih =>
    cases rest with
    | nil =>
      simp only [chunkTail, List.not_mem_nil, false_iff]
      rintro ⟨j, a, b, ha, hb, _, _⟩
      cases j with
      | zero => simp at hb
      | succ j2 => simp at ha
    | cons b0 rest2 =>
      show c ∈ (if getId b0 - getId a0 ≠ 1 then [(⟨getId b0, k + 1⟩ : SVChunk)] else []) ++
          chunkTail getId (k + 1) (b0 :: rest2) ↔ _
      rw [List.mem_append, ih (k + 1)]
      constructor
      · rintro (hhd | ⟨j, a, b, ha, hb, hj, hc⟩)
        · by_cases hjump : getId b0 - getId a0 ≠ 1
          · rw [if_pos hjump] at hhd
            simp only [List.mem_singleton] at hhd
            exact ⟨0, a0, b0, rfl, rfl, hjump, by simpa using hhd⟩
          · rw [if_neg hjump] at hhd
            simp at hhd
        · refine ⟨j + 1, a, b, ?_, ?_, hj, ?_⟩
          · simpa using ha
          · simpa using hb
          · rw [hc]
            congr 1
            omega
      · rintro ⟨j, a, b, ha, hb, hj, hc⟩
        cases j with
        | zero =>
          simp only [List.get?] at ha hb
          obtain rfl : a0 = a := by injection ha
          obtain rfl : b0 = b := by injection hb
          left
          rw [if_pos hj]
          simp only [List.mem_singleton]
          rw [hc]
        | succ j2 =>
          right
          refine ⟨j2, a, b, by simpa using ha, by simpa using hb, hj, ?_⟩
          rw [hc]
          congr 1
          omega

theorem chunkTail_index_ge {α : Type} (getId : α → ℕ) (k : ℕ) (l : List α)
    (c : SVChunk) (hc : c ∈ chunkTail getId k l) : k + 1 ≤ c.start_index := by
  obtain ⟨j, a, b, _, _, _, hc⟩ := (mem_chunkTail getId k l c).mp hc
  rw [hc]
  show k + 1 ≤ k + j + 1
  omega

theorem chunkTail_pairwise_index {α : Type} (getId : α → ℕ) (k : ℕ)
    (l : List α) :
    List.Pairwise (fun c1 c2 : SVChunk => c1.start_index < c2.start_index)
      (chunkTail getId k l) := by
  induction l generalizing k with
  | nil => simp [chunkTail]
  | cons a0 rest ih =>
    cases rest with
    | nil => simp [chunkTail]
    | cons b0 rest2 =>
      show List.Pairwise _
        ((if getId b0 - getId a0 ≠ 1 then [(⟨getId b0, k + 1⟩ : SVChunk)] else []) ++
          chunkTail getId (k + 1) (b0 :: rest2))
      by_cases hjump : getId b0 - getId a0 ≠ 1
      · rw [if_pos hjump]
        rw [List.singleton_append]
        refine List.Pairwise.cons ?_ (ih (k + 1))
        intro c2 hc2
        have := chunkTail_index_ge getId (k + 1) _ c2 hc2
        simpa using by omega
      · rw [if_neg hjump, List.nil_append]
        exact ih (k + 1)

theorem rebuildChunks_pairwise_index {α : Type} (getId : α → ℕ)
    (items : List α) :
    List.Pairwise (fun c1 c2 : SVChunk => c1.start_index < c2.start_index)
      (rebuildChunks getId items) := by
  cases items with
  | nil => simp [rebuildChunks]
  | cons x xs =>
    refine List.Pairwise.cons ?_ (chunkTail_pairwise_index getId 0 (x :: xs))
    intro c2 hc2
    have := chunkTail_index_ge getId 0 _ c2 hc2
    show 0 < c2.start_index
    omega

theorem rebuildChunks_start_id {α : Type} (getId : α → ℕ) (items : List α)
    (c : SVChunk) (hc : c ∈ rebuildChunks getId items) :
    ∃ e, items.get? c.start_index = some e ∧ getId e = c.start_id := by
  cases items with
  | nil => simp [rebuildChunks] at hc
  | cons x xs =>
    rw [rebuildChunks] at hc
    rcases List.mem_cons.mp hc with rfl | htl
    · exact ⟨x, rfl, rfl⟩
    · obtain ⟨j, a, b, _, hb, _, rfl⟩ := (mem_chunkTail getId 0 (x :: xs) c).mp htl
      exact ⟨b, by simpa using hb, rfl⟩

theorem rebuildChunks_pairwise_id {α : Type} (getId : α → ℕ) (items : List α)
    (hp : List.Pairwise (fun a b => getId a < getId b) items) :
    List.Pairwise (fun c1 c2 : SVChunk => c1.start_id < c2.start_id)
      (rebuildChunks getId items) := by
  have hidx := rebuildChunks_pairwise_index getId items
  rw [List.pairwise_iff_get] at hidx ⊢
  intro p1 p2 hplt
  have h1 := rebuildChunks_start_id getId items _
    (List.get_mem (rebuildChunks getId items) p1.1 p1.2)
  have h2 := rebuildChunks_start_id getId items _
    (List.get_mem (rebuildChunks getId items) p2.1 p2.2)
  obtain ⟨e1, he1, hid1⟩ := h1
  obtain ⟨e2, he2, hid2⟩ := h2
  rw [← hid1, ← hid2]
  rw [List.get?_eq_some] at he1 he2
  obtain ⟨hl1, rfl⟩ := he1
  obtain ⟨hl2, rfl⟩ := he2
  exact List.pairwise_iff_get.mp hp _ _ (hidx p1 p2 hplt)

theorem chunksSearch_found (chunks : List SVChunk) (q : ℕ)
    (hs : List.Pairwise (fun c1 c2 : SVChunk => c1.start_id < c2.start_id) chunks)
    (p : ℕ) (c : SVChunk) (hc : chunks.get? p = some c)
    (hq : c.start_id = q) :
    chunksSearch chunks q = .found c := by
  induction chunks generalizing p with
  | nil => simp at hc
  | cons c1 rest ih =>
    cases p with
    | zero =>
      obtain rfl : c1 = c := by injection hc
      rw [chunksSearch, if_neg (by omega), if_pos hq.symm]
    | succ p2 =>
      have hmem : c ∈ rest := List.get?_mem (by simpa using hc)
      have hlt : c1.start_id < c.start_id := List.rel_of_pairwise_cons hs hmem
      rw [chunksSearch, if_neg (by omega), if_neg (by omega)]
      rw [ih hs.of_cons p2 (by simpa using hc)]

theorem chunksSearch_insert (chunks : List SVChunk) (q : ℕ)
    (hs : List.Pairwise (fun c1 c2 : SVChunk => c1.start_id < c2.start_id) chunks)
    (p : ℕ) (c : SVChunk) (hc : chunks.get? p = some c)
    (hlt : c.start_id < q)
    (hnext : ∀ c2, chunks.get? (p + 1) = some c2 → q < c2.start_id) :
    chunksSearch chunks q = .insertAt (p + 1) := by
  induction chunks generalizing p with
  | nil => simp at hc
  | cons c1 rest ih =>
    cases p with
    | zero =>
      obtain rfl : c1 = c := by injection hc
      rw [chunksSearch, if_neg (by omega), if_neg (by omega)]
      have hrest : chunksSearch rest q = .insertAt 0 := by
        cases rest with
        | nil => rfl
        | cons c2 rest2 =>
          have := hnext c2 rfl
          rw [chunksSearch, if_pos this]
      rw [hrest]
    | succ p2 =>
      have hmem : c ∈ rest := List.get?_mem (by simpa using hc)
      have hlt1 : c1.start_id < c.start_id := List.rel_of_pairwise_cons hs hmem
      rw [chunksSearch, if_neg (by omega), if_neg (by omega)]
      rw [ih hs.of_cons p2 (by simpa using hc)
        (fun c2 h2 => hnext c2 (by simpa using h2))]

theorem governingChunk {α : Type} (getId : α → ℕ) (items : List α)
    (hp : List.Pairwise (fun a b => getId a < getId b) items) :
    ∀ i a, items.get? i = some a →
      ∃ p c, (rebuildChunks getId items).get? p = some c ∧
        c.start_index ≤ i ∧
        c.start_id + (i - c.start_index) = getId a ∧
        ∀ c2, (rebuildChunks getId items).get? (p + 1) = some c2 →
          i < c2.start_index := by
  intro i
  induction i with
  | zero =>
    intro a ha
    cases items with
    | nil => simp at ha
    | cons x xs =>
      have hxa : x = a := by injection ha
      subst hxa
      refine ⟨0, ⟨getId x, 0⟩, rfl, Nat.le_refl 0, rfl, ?_⟩
      intro c2 h2
      have hmem : c2 ∈ chunkTail getId 0 (x :: xs) := by
        simp only [rebuildChunks] at h2
        exact List.get?_mem (by simpa using h2)
      have := chunkTail_index_ge getId 0 _ c2 hmem
      omega
  | succ i ih =>
    intro a ha
    have hlen : i + 1 < items.length := (List.get?_eq_some.mp ha).1
    have hprev : ∃ a2, items.get? i = some a2 := by
      have hi : i < items.length := by omega
      exact ⟨items.get ⟨i, hi⟩, List.get?_eq_get hi⟩
    obtain ⟨a2, ha2⟩ := hprev
    by_cases hjump : getId a - getId a2 ≠ 1
    · have hmem : (⟨getId a, i + 1⟩ : SVChunk) ∈ rebuildChunks getId items := by
        cases items with
        | nil => simp at ha
        | cons x xs =>
          rw [rebuildChunks]
          refine List.mem_cons.mpr (Or.inr ?_)
          exact (mem_chunkTail getId 0 (x :: xs) _).mpr ⟨i, a2, a, ha2, ha, hjump, by simp⟩
      obtain ⟨p, hpc⟩ := List.mem_iff_get?.mp hmem
      refine ⟨p, ⟨getId a, i + 1⟩, hpc, Nat.le_refl _, by simp, ?_⟩
      intro c2 h2
      have hidx := rebuildChunks_pairwise_index getId items
      rw [List.pairwise_iff_get] at hidx
      rw [List.get?_eq_some] at hpc h2
      obtain ⟨hp1, he1⟩ := hpc
      obtain ⟨hp2, he2⟩ := h2
      have := hidx ⟨p, hp1⟩ ⟨p + 1, hp2⟩ (by simp)
      rw [he1, he2] at this
      exact this
    · have hadj : getId a2 < getId a := by
        rw [List.get?_eq_some] at ha ha2
        obtain ⟨h1, rfl⟩ := ha2
        obtain ⟨h2, rfl⟩ := ha
        exact List.pairwise_iff_get.mp hp ⟨i, h1⟩ ⟨i + 1, h2⟩ (by simp)
      have hsuc : getId a = getId a2 + 1 := by omega
      obtain ⟨p, c, hpc, hle, heq, hnext⟩ := ih a2 ha2
      refine ⟨p, c, hpc, by omega, by omega, ?_⟩
      intro c2 h2
      have hgt := hnext c2 h2
      by_cases heqidx : c2.start_index = i + 1
      · exfalso
        have hmem : c2 ∈ rebuildChunks getId items := List.get?_mem h2
        cases items with
        | nil => simp at ha
        | cons x xs =>
          rw [rebuildChunks] at hmem
          rcases List.mem_cons.mp hmem with rfl | htl
          · simp at heqidx
          · obtain ⟨j, a3, b3, ha3, hb3, hj3, hc3⟩ :=
              (mem_chunkTail getId 0 (x :: xs) c2).mp htl
            have : j = i := by
              rw [hc3] at heqidx
              simpa using heqidx
            subst this
            rw [ha2] at ha3
            rw [ha] at hb3
            obtain rfl : a2 = a3 := by injection ha3
            obtain rfl : a = b3 := by injection hb3
            exact hj3 (by omega)
      · omega

theorem svGetItemIndex_complete {α : Type} (getId : α → ℕ) (items : List α)
    (hp : List.Pairwise (fun a b => getId a < getId b) items)
    (i : ℕ) (a : α) (ha : items.get? i = some a) :
    svGetItemIndex (rebuildChunks getId items) (getId a) = some i := by
  obtain ⟨p, c, hpc, hle, heq, hnext⟩ := governingChunk getId items hp i a ha
  have hsorted := rebuildChunks_pairwise_id getId items hp
  by_cases hid : c.start_id = getId a
  · have : i = c.start_index := by omega
    rw [svGetItemIndex,
      chunksSearch_found (rebuildChunks getId items) (getId a) hsorted p c hpc hid]
    rw [this]
  · have hlt : c.start_id < getId a := by omega
    have hnext2 : ∀ c2, (rebuildChunks getId items).get? (p + 1) = some c2 →
        getId a < c2.start_id := by
      intro c2 h2
      obtain ⟨e, he, hide⟩ := rebuildChunks_start_id getId items c2 (List.get?_mem h2)
      rw [← hide]
      rw [List.get?_eq_some] at ha he
      obtain ⟨h1, rfl⟩ := ha
      obtain ⟨h2e, rfl⟩ := he
      exact List.pairwise_iff_get.mp hp ⟨i, h1⟩ ⟨c2.start_index, h2e⟩ (hnext c2 h2)
    rw [svGetItemIndex,
      chunksSearch_insert (rebuildChunks getId items) (getId a) hsorted p c hpc hlt hnext2]
    dsimp only
    rw [if_pos (by omega : p + 1 > 0)]
    rw [show p + 1 - 1 = p from rfl]
    rw [hpc, optionMapSome]
    congr 1
    omega

/-- Claim C10: for a chunked sparse vector built (by `rebuild_chunks`) from
items with strictly increasing ids, `get(q)` returns exactly the stored item
whose id equals `q`, and `None` for every absent id — the final id equality
check prevents a gap query's extrapolated index from aliasing another item. -/
theorem claimC10_sparse_get {α : Type} (getId : α → ℕ) (items : List α)
    (hp : List.Pairwise (fun a b => getId a < getId b) items) (q : ℕ) :
    svGet getId (rebuildChunks getId items) items q =
      items.find? (fun a => getId a == q) := by
  cases hf : items.find? (fun a => getId a == q) with
  | none =>
    have hno : ∀ b ∈ items, getId b ≠ q := by
      intro b hb
      have := List.find?_eq_none.mp hf b hb
      simpa using this
    unfold svGet
    cases hidx : svGetItemIndex (rebuildChunks getId items) q with
    | none => rfl
    | some idx =>
      simp only [Option.some_bind]
      cases hget : items.get? idx with
      | none => rfl
      | some cand =>
        simp only [Option.some_bind]
        rw [if_neg (hno cand (List.get?_mem hget))]
  | some a =>
    have hmem : a ∈ items := List.mem_of_find?_eq_some hf
    have hq : getId a = q := by
      have := List.find?_some hf
      simpa using this
    obtain ⟨i, hi⟩ := List.mem_iff_get?.mp hmem
    have hcomplete := svGetItemIndex_complete getId items hp i a hi
    rw [hq] at hcomplete
    unfold svGet
    rw [hcomplete]
    simp only [Option.some_bind]
    rw [hi]
    simp only [Option.some_bind]
    rw [if_pos hq]

/-- Claim C10, witness: the lookup theorem applied to the block-id layout of
the repository's own sparse-map test (`[1,2,3,50,51,52,65,70,100,101]`), at
the gap id 66 — whose extrapolated index lands on the item with id 70 — and,
via `find?`, evaluating to `none`. -/
theorem claimC10_sparse_get_witness :
    List.Pairwise (fun a b : ℕ × ℕ => a.1 < b.1)
      [(1, 0), (2, 0), (3, 0), (50, 0), (51, 0), (52, 0), (65, 0), (70, 0),
        (100, 0), (101, 0)] ∧
    svGet (fun a : ℕ × ℕ => a.1)
      (rebuildChunks (fun a : ℕ × ℕ => a.1)
        [(1, 0), (2, 0), (3, 0), (50, 0), (51, 0), (52, 0), (65, 0), (70, 0),
          (100, 0), (101, 0)])
      [(1, 0), (2, 0), (3, 0), (50, 0), (51, 0), (52, 0), (65, 0), (70, 0),
        (100, 0), (101, 0)] 66 =
      List.find? (fun a : ℕ × ℕ => a.1 == 66)
        [(1, 0), (2, 0), (3, 0), (50, 0), (51, 0), (52, 0), (65, 0), (70, 0),
          (100, 0), (101, 0)] :=
  ⟨by decide,
    claimC10_sparse_get (fun a : ℕ × ℕ => a.1) _ (by decide) 66⟩

/-! ## Block map, walk iterator and signal lookup (`block.rs`)

`BlockMap.signals: HashMap<(BlockId, Direction), TrackSignal>` is modelled as
an association list (each key occurs at most once). -/

/-- `SpeedControl` of `block.rs` (the `allowed_kmh` record of this iteration;
distinct from the aspect-based `SpeedControl` of `signal.rs` below). -/
structure SpeedControlAllowed where
  allowed_kmh : ℚ
deriving DecidableEq, Repr

/-- `TrackSignal` of `block.rs`. -/
structure TrackSignal where
  id : ℕ
  position : TrackPoint
  lamp_id : ℕ
  direction : Direction
  name : String
  speed_ctrl : SpeedControlAllowed
deriving DecidableEq, Repr

/-- `BlockMap` of `block.rs`. -/
structure BlockMap where
  chunks : List SVChunk
  blocks : List Block
  signals : List ((ℕ × Direction) × TrackSignal)
  tracker : BlockTracker

/-- `BlockMap::get_block_by_id`: the same chunked lookup as `SparseVec::get`
(`get_block_index` is character-for-character `get_item_index`), with the
final id equality check. -/
def getBlockById (m : BlockMap) (id : ℕ) : Option Block :=
  svGet Block.id m.chunks m.blocks id

/-- `BlockMap::get_available_length`: length remaining ahead of the point in
the given direction.  The source `.expect`s the block; a missing block id is
modelled as `none`. -/
def getAvailableLength (m : BlockMap) (p : TrackPoint) (d : Direction) :
    Option ℚ :=
  (getBlockById m p.block_id).map fun b =>
    if d = .Even then b.length_m - p.offset_m else p.offset_m

/-- `BlockMap::get_next`: follow `next` for `Even`, `prev` for `Odd`.  The
source `.expect`s both block lookups (panicking on a dangling id); on the
well-formed maps used here both resolve, and a missing id is modelled as
`none`. -/
def getNext (m : BlockMap) (block_id : ℕ) (d : Direction) : Option Block :=
  (getBlockById m block_id).bind fun b =>
    (match d with
      | .Even => b.next
      | .Odd => b.prev).bind fun nid => getBlockById m nid

/-- Lookup in the `signals` hash map by `(block_id, direction)` key. -/
def signalsGet (m : BlockMap) (block_id : ℕ) (d : Direction) :
    Option TrackSignal :=
  (m.signals.find? fun kv => decide (kv.1.1 = block_id ∧ kv.1.2 = d)).map (·.2)

/-- The state of `TrackWalker` (`block.rs`).  `offset_m = none` models the
`f64::NAN` marker the iterator stores when the graph ends. -/
structure TrackWalker where
  current_block_id : ℕ
  length_m : ℚ
  offset_m : Option ℚ
  direction : Direction
  block_available_m : ℚ
  current_block_length_m : ℚ
deriving DecidableEq, Repr

/-- One call to `TrackWalker::next`: either a yielded point together with the
successor state, iterator exhaustion (`None` in Rust), or a panic. -/
inductive WalkStep where
  | yield (p : TrackPoint) (w : TrackWalker)
  | done
  | panic
deriving DecidableEq, Repr

/-- `TrackWalker::next` (`block.rs` lines 386–425), translated clause by
clause: a non-positive remaining length ends the iteration; a `NaN` offset
(`offset_m = none`) panics; a length that fits strictly inside the current
block yields the advanced point and zeroes the remaining length; otherwise
the far end of the current block is yielded, the consumed available length
subtracted, and the walker either advances to the neighbouring block or
marks the offset `NaN`. -/
def walkerNext (m : BlockMap) (w : TrackWalker) : WalkStep :=
  if w.length_m ≤ 0 then .done
  else
    match w.offset_m with
    | none => .panic
    | some offset =>
      if w.length_m < w.block_available_m then
        .yield ⟨w.current_block_id, offset + w.direction.applySign w.length_m⟩
          { w with length_m := 0 }
      else
        let remaining := w.length_m - w.block_available_m
        let far : ℚ :=
          match w.direction with
          | .Even => w.current_block_length_m
          | .Odd => 0
        match getNext m w.current_block_id w.direction with
        | some nb =>
          .yield ⟨w.current_block_id, far⟩
            { current_block_id := nb.id, length_m := remaining,
              offset_m := some (match w.direction with
                | .Even => 0
                | .Odd => nb.length_m),
              direction := w.direction, block_available_m := nb.length_m,
              current_block_length_m := nb.length_m }
        | none =>
          .yield ⟨w.current_block_id, far⟩
            { w with length_m := remaining, offset_m := none }

/-- Run the walker to exhaustion, collecting the yielded points; the flag
records whether the run ended in a panic.  `none` = out of fuel. -/
def walkerCollect (m : BlockMap) : ℕ → TrackWalker → Option (List TrackPoint × Bool)
  | 0, _ => none
  | fuel + 1, w =>
    match walkerNext m w with
    | .done => some ([], false)
    | .panic => some ([], true)
    | .yield p w2 => (walkerCollect m fuel w2).map fun r => (p :: r.1, r.2)

/-- `BlockMap::walk`: the initial walker state (the source `.unwrap`s the
start block; a missing start block is modelled as `none`). -/
def mkWalker (m : BlockMap) (start : TrackPoint) (len : ℚ) (d : Direction) :
    Option TrackWalker :=
  (getBlockById m start.block_id).map fun b =>
    { current_block_id := start.block_id, length_m := len,
      offset_m := some start.offset_m, direction := d,
      block_available_m :=
        if d = .Even then b.length_m - start.offset_m else start.offset_m,
      current_block_length_m := b.length_m }

/-- The full point sequence of `walk(start, len, d)`. -/
def walkPoints (m : BlockMap) (start : TrackPoint) (len : ℚ) (d : Direction)
    (fuel : ℕ) : Option (List TrackPoint × Bool) :=
  (mkWalker m start len d).bind (walkerCollect m fuel)

/-- Result of `BlockMap::lookup_signal`: in the source the function either
returns a signal with its distance or panics inside the `length = ∞` walk
when the graph ends (`find_signal_even_same_block_behind` in the source's
tests asserts the panic); it has no graceful absent result. -/
inductive LookupRes where
  | found (s : TrackSignal) (dist : ℚ)
  | panicked
deriving DecidableEq, Repr

/-- The loop of `BlockMap::lookup_signal` (`block.rs` lines 192–206),
specialised to the `length = ∞` walk it drives: the walk visits the start
block and then each successive block (yielding far-end points, so the
accumulated `get_available_length(point, reversed)` of a passed block is its
full length); at each visited block the signal keyed `(block, direction)` is
taken if the walk index is positive or the signed offset difference from the
start is strictly positive; when the graph ends the underlying walker
panics. -/
def lookupSignalGo (m : BlockMap) (d : Direction) (startOffset : ℚ) :
    Bool → ℚ → Block → ℕ → Option LookupRes
  | _, _, _, 0 => none
  | first, acc, b, fuel + 1 =>
    let hit : Option LookupRes :=
      match signalsGet m b.id d with
      | some s =>
        if ¬ first ∨ d.applySign (s.position.offset_m - startOffset) > 0 then
          some (.found s (acc + (if d = .Even then s.position.offset_m
            else b.length_m - s.position.offset_m)))
        else none
      | none => none
    match hit with
    | some r => some r
    | none =>
      match getNext m b.id d with
      | none => some .panicked
      | some b2 => lookupSignalGo m d startOffset false (acc + b.length_m) b2 fuel

/-- `BlockMap::lookup_signal`: the accumulator starts at
`-get_available_length(start, reversed)`. -/
def lookupSignal (m : BlockMap) (start : TrackPoint) (d : Direction)
    (fuel : ℕ) : Option LookupRes :=
  (getBlockById m start.block_id).bind fun b0 =>
    lookupSignalGo m d start.offset_m true
      (-(if d = .Even then start.offset_m else b0.length_m - start.offset_m))
      b0 fuel

/-! ### The spec's concrete test track

Blocks `B1 (1000 m) → B2 (500 m) → B3 (1500 m)`, signal S1 at `(B3, 1400)`
facing `Even`, signal S2 at `(B1, 250)` facing `Odd` (the fixture of the
spec's end-to-end scenarios and of the source's own `build_track` tests). -/

def sigS1 : TrackSignal :=
  { id := 1, position := ⟨3, 1400⟩, lamp_id := 101, direction := .Even,
    name := "S1", speed_ctrl := ⟨80⟩ }

def sigS2 : TrackSignal :=
  { id := 2, position := ⟨1, 250⟩, lamp_id := 102, direction := .Odd,
    name := "S2", speed_ctrl := ⟨80⟩ }

def trackMap : BlockMap :=
  { chunks := [⟨1, 0⟩],
    blocks :=
      [{ id := 1, length_m := 1000, lamp_id := 11, next := some 2 },
       { id := 2, length_m := 500, lamp_id := 12, prev := some 1, next := some 3 },
       { id := 3, length_m := 1500, lamp_id := 13, prev := some 2 }],
    signals := [((3, .Even), sigS1), ((1, .Odd), sigS2)],
    tracker := emptyTracker }


/-! ### Claims C1, C8 — the walk iterator -/

/-- The far endpoint of the walker's current block (`length_m` for `Even`,
`0` for `Odd`), as yielded by the non-fitting branch of `TrackWalker::next`. -/
def walkerFar (w : TrackWalker) : ℚ :=
  match w.direction with
  | .Even => w.current_block_length_m
  | .Odd => 0

/-- The walker state after the terminal yield: consumed available length
subtracted, offset marked `NaN`. -/
def walkerTerminal (w : TrackWalker) : TrackWalker :=
  { w with length_m := w.length_m - w.block_available_m, offset_m := none }

/-- Claim C1, counterexample: walking from `(B3, 850)` for 2500 m in `Even`
direction (the source's own `walk_track_even_panic` test input). The
iterator yields the terminal far endpoint `(3, 1500)` and then, with 1850 m
still to consume, the next call panics (flag `true`) — it does not return
`none`, and the iterator does panic for this valid start point, direction
and non-negative length. -/
theorem claimC1_counterexample :
    walkPoints trackMap ⟨3, 850⟩ 2500 .Even 10 = some ([⟨3, 1500⟩], true) := by
  norm_num +decide [walkPoints, mkWalker, walkerCollect, walkerNext, getNext,
    getBlockById, svGet, svGetItemIndex, chunksSearch, trackMap,
    Direction.applySign]

/-- Claim C1 (amended): when the connection graph terminates while at least
the current block's available length remains, `next()` yields the far
endpoint of the terminal block and marks the offset `NaN`; the subsequent
call returns `None` exactly when the remaining length is then non-positive
(the walk consumed the track to its end) and panics otherwise — the walk
does not silently end with remaining length. -/
theorem claimC1_amended (m : BlockMap) (w : TrackWalker) (o : ℚ)
    (hlen : 0 < w.length_m) (hoff : w.offset_m = some o)
    (hav : w.block_available_m ≤ w.length_m)
    (hterm : getNext m w.current_block_id w.direction = none) :
    walkerNext m w =
      .yield ⟨w.current_block_id, walkerFar w⟩ (walkerTerminal w) ∧
    walkerNext m (walkerTerminal w) =
      (if w.length_m - w.block_available_m ≤ 0 then .done else .panic) := by
  constructor
  · rw [walkerNext, if_neg (not_le.mpr hlen), hoff]
    dsimp only
    rw [if_neg (not_lt.mpr hav), hterm]
    rfl
  · rw [walkerTerminal, walkerNext]

/-- Claim C1, witness: the amended terminal behaviour applied at the
concrete walker state reached on the test track at `(B3, 850)` with 2500 m
left to walk. -/
theorem claimC1_amended_witness :
    (0 : ℚ) < 2500 ∧ (650 : ℚ) ≤ 2500 ∧
    getNext trackMap 3 .Even = none ∧
    walkerNext trackMap
      { current_block_id := 3, length_m := 2500, offset_m := some 850,
        direction := .Even, block_available_m := 650,
        current_block_length_m := 1500 } =
      .yield ⟨3, 1500⟩
        (walkerTerminal
          { current_block_id := 3, length_m := 2500, offset_m := some 850,
            direction := .Even, block_available_m := 650,
            current_block_length_m := 1500 }) := by
  have hterm : getNext trackMap 3 .Even = none := by
    norm_num +decide [getNext, getBlockById, svGet, svGetItemIndex,
      chunksSearch, trackMap]
  refine ⟨by norm_num, by norm_num, hterm, ?_⟩
  have h := claimC1_amended trackMap
    { current_block_id := 3, length_m := 2500, offset_m := some 850,
      direction := .Even, block_available_m := 650,
      current_block_length_m := 1500 }
    850 (by norm_num) rfl (by norm_num) hterm
  rw [h.1]
  rfl

/-- Claim C8: a walk of length 0 yields no points; a walk whose length fits
strictly inside the start block's available length yields exactly the
single point `P + apply_sign(L)` on the same block; and on the concrete
track `B1(1000) → B2(500) → B3(1500)`, `walk((B1, 250), 2500, Even)` yields
exactly `(B1, 1000) (B2, 500) (B3, 1250)` without panicking. -/
theorem claimC8_walk :
    (∀ (m : BlockMap) (start : TrackPoint) (d : Direction) (b0 : Block)
      (fuel : ℕ), getBlockById m start.block_id = some b0 →
      walkPoints m start 0 d (fuel + 1) = some ([], false)) ∧
    (∀ (m : BlockMap) (start : TrackPoint) (d : Direction) (avail L : ℚ)
      (fuel : ℕ), getAvailableLength m start d = some avail →
      0 < L → L < avail →
      walkPoints m start L d (fuel + 2) =
        some ([⟨start.block_id, start.offset_m + d.applySign L⟩], false)) ∧
    walkPoints trackMap ⟨1, 250⟩ 2500 .Even 10 =
      some ([⟨1, 1000⟩, ⟨2, 500⟩, ⟨3, 1250⟩], false) := by
  refine ⟨?_, ?_, ?_⟩
  · intro m start d b0 fuel hb0
    rw [walkPoints, mkWalker, hb0, optionMapSome, Option.some_bind]
    simp only [walkerCollect]
    rw [walkerNext, if_pos (le_refl (0 : ℚ))]
  · intro m start d avail L fuel havail hL hLa
    rw [getAvailableLength] at havail
    cases hb0 : getBlockById m start.block_id with
    | none => rw [hb0] at havail; simp at havail
    | some b0 =>
      rw [hb0, optionMapSome] at havail
      have havail2 : (if d = .Even then b0.length_m - start.offset_m
          else start.offset_m) = avail := by injection havail
      rw [walkPoints, mkWalker, hb0, optionMapSome, Option.some_bind]
      simp only [walkerCollect]
      rw [walkerNext, if_neg (not_le.mpr hL)]
      dsimp only
      rw [havail2, if_pos hLa]
      simp only [walkerCollect]
      rw [walkerNext]
      dsimp only
      rw [if_pos (le_refl (0 : ℚ))]
      rfl
  · norm_num +decide [walkPoints, mkWalker, walkerCollect, walkerNext,
      getNext, getBlockById, svGet, svGetItemIndex, chunksSearch, trackMap,
      Direction.applySign]

/-- Claim C8, witness: the single-point case at the source's
`walk_same_block_even` test input — `(B1, 250)`, length 450, `Even` —
yielding exactly `(B1, 700)`. -/
theorem claimC8_walk_witness :
    getAvailableLength trackMap ⟨1, 250⟩ .Even = some 750 ∧
    (0 : ℚ) < 450 ∧ (450 : ℚ) < 750 ∧
    walkPoints trackMap ⟨1, 250⟩ 450 .Even 5 = some ([⟨1, 700⟩], false) := by
  have havail : getAvailableLength trackMap ⟨1, 250⟩ .Even = some 750 := by
    norm_num +decide [getAvailableLength, getBlockById, svGet,
      svGetItemIndex, chunksSearch, trackMap]
  refine ⟨havail, by norm_num, by norm_num, ?_⟩
  have h := claimC8_walk.2.1 trackMap ⟨1, 250⟩ .Even 750 450 3 havail
    (by norm_num) (by norm_num)
  rw [h]
  norm_num [Direction.applySign]

/-! ### Claim C4 — forward signal lookup -/

/-- The k-th successor block along a direction (`get_next` iterated). -/
def chainBlocks (m : BlockMap) (d : Direction) : Block → ℕ → Option Block
  | b, 0 => some b
  | b, k + 1 => (getNext m b.id d).bind fun b2 => chainBlocks m d b2 k

/-- Total length of the first `k` blocks of the chain starting at `b`. -/
def chainLenSum (m : BlockMap) (d : Direction) : Block → ℕ → Option ℚ
  | _, 0 => some 0
  | b, k + 1 => (getNext m b.id d).bind fun b2 =>
      (chainLenSum m d b2 k).map (fun L => b.length_m + L)

/-- `get_available_length(signal.position, reversed)` expressed with the
signal's block at hand: the distance from the block's rear end (in walk
direction) to the signal. -/
def sigAhead (d : Direction) (b : Block) (s : TrackSignal) : ℚ :=
  if d = .Even then s.position.offset_m else b.length_m - s.position.offset_m

/-- Soundness of the `lookup_signal` loop: a `found` result is a signal of
the queried direction located on the `k`-th chain block, no earlier chain
block carries an accepted signal of that direction (a signal on the start
block is skipped when its signed offset difference is not strictly
positive), and the distance is exactly the accumulated track length. -/
theorem lookupGo_found_sound (m : BlockMap) (d : Direction) (so : ℚ)
    (fuel : ℕ) :
    ∀ (first : Bool) (acc : ℚ) (b : Block) (s : TrackSignal) (dist : ℚ),
      lookupSignalGo m d so first acc b fuel = some (.found s dist) →
      ∃ k bk L, chainBlocks m d b k = some bk ∧
        signalsGet m bk.id d = some s ∧
        chainLenSum m d b k = some L ∧
        dist = acc + L + sigAhead d bk s ∧
        (k = 0 → first = true → d.applySign (s.position.offset_m - so) > 0) ∧
        (∀ j bj s2, j < k → chainBlocks m d b j = some bj →
          signalsGet m bj.id d = some s2 →
          j = 0 ∧ first = true ∧
            ¬ d.applySign (s2.position.offset_m - so) > 0) := by
  induction fuel with
  | zero => intro first acc b s dist h; simp [lookupSignalGo] at h
  | succ fuel ih =>
    intro first acc b s dist h
    rw [lookupSignalGo] at h
    cases hsg : signalsGet m b.id d with
    | some s0 =>
      rw [hsg] at h
      dsimp only at h
      by_cases hacc : (¬ first = true) ∨ d.applySign (s0.position.offset_m - so) > 0
      · rw [if_pos hacc] at h
        dsimp only at h
        rw [Option.some_inj] at h
        obtain ⟨hs, hdist0⟩ := LookupRes.found.inj h
        subst hs
        have hdist : dist = acc + (if d = .Even then s0.position.offset_m
            else b.length_m - s0.position.offset_m) := hdist0.symm
        refine ⟨0, b, 0, rfl, hsg, rfl, ?_, ?_, ?_⟩
        · rw [hdist, sigAhead]; ring
        · intro _ hfirst
          rcases hacc with hne | hpos
          · exact absurd hfirst hne
          · exact hpos
        · intro j bj s2 hj
          exact absurd hj (Nat.not_lt_zero j)
      · rw [if_neg hacc] at h
        dsimp only at h
        push_neg at hacc
        obtain ⟨hfirst, hneg⟩ := hacc
        cases hnx : getNext m b.id d with
        | none =>
          rw [hnx] at h
          simp at h
        | some b2 =>
          rw [hnx] at h
          obtain ⟨k, bk, L, hchain, hsig, hlen, hdist, _, hnoe⟩ :=
            ih false (acc + b.length_m) b2 s dist h
          refine ⟨k + 1, bk, b.length_m + L, ?_, hsig, ?_, ?_, ?_, ?_⟩
          · rw [chainBlocks, hnx, Option.some_bind]; exact hchain
          · rw [chainLenSum, hnx, Option.some_bind, hlen, optionMapSome]
          · rw [hdist]; ring
          · intro hk; exact absurd hk (Nat.succ_ne_zero k)
          · intro j bj s2 hj hcj hsj
            cases j with
            | zero =>
              rw [chainBlocks] at hcj
              have hbj : b = bj := by injection hcj
              subst hbj
              rw [hsg] at hsj
              have hs2 : s0 = s2 := by injection hsj
              subst hs2
              exact ⟨rfl, hfirst, not_lt.mpr hneg⟩
            | succ j2 =>
              rw [chainBlocks, hnx, Option.some_bind] at hcj
              have := hnoe j2 bj s2 (by omega) hcj hsj
              exact absurd this.2.1 (by simp)
    | none =>
      rw [hsg] at h
      dsimp only at h
      cases hnx : getNext m b.id d with
      | none => rw [hnx] at h; simp at h
      | some b2 =>
        rw [hnx] at h
        obtain ⟨k, bk, L, hchain, hsig, hlen, hdist, _, hnoe⟩ :=
          ih false (acc + b.length_m) b2 s dist h
        refine ⟨k + 1, bk, b.length_m + L, ?_, hsig, ?_, ?_, ?_, ?_⟩
        · rw [chainBlocks, hnx, Option.some_bind]; exact hchain
        · rw [chainLenSum, hnx, Option.some_bind, hlen, optionMapSome]
        · rw [hdist]; ring
        · intro hk; exact absurd hk (Nat.succ_ne_zero k)
        · intro j bj s2 hj hcj hsj
          cases j with
          | zero =>
            rw [chainBlocks] at hcj
            have hbj : b = bj := by injection hcj
            subst hbj
            rw [hsg] at hsj
            exact absurd hsj (by simp)
          | succ j2 =>
            rw [chainBlocks, hnx, Option.some_bind] at hcj
            have := hnoe j2 bj s2 (by omega) hcj hsj
            exact absurd this.2.1 (by simp)

/-- Panic-completeness of the `lookup_signal` loop: when the chain ends at
the `k`-th block with no accepted signal anywhere on it, the loop runs off
the end of the walk and panics (it has no absent result). -/
theorem lookupGo_panics (m : BlockMap) (d : Direction) (so : ℚ) (k : ℕ) :
    ∀ (first : Bool) (acc : ℚ) (b : Block) (fuel : ℕ) (bk : Block),
      chainBlocks m d b k = some bk → getNext m bk.id d = none →
      (∀ j bj s2, j ≤ k → chainBlocks m d b j = some bj →
        signalsGet m bj.id d = some s2 →
        j = 0 ∧ first = true ∧
          ¬ d.applySign (s2.position.offset_m - so) > 0) →
      k < fuel →
      lookupSignalGo m d so first acc b fuel = some .panicked := by
  induction k with
  | zero =>
    intro first acc b fuel bk hc hterm hrej hfuel
    have hbk : b = bk := by rw [chainBlocks] at hc; injection hc
    subst hbk
    cases fuel with
    | zero => omega
    | succ f =>
      rw [lookupSignalGo]
      cases hsg : signalsGet m b.id d with
      | some s0 =>
        obtain ⟨_, hfirst, hneg⟩ := hrej 0 b s0 (Nat.le_refl 0) rfl hsg
        dsimp only
        rw [if_neg (by push_neg; exact ⟨hfirst, not_lt.mp hneg⟩)]
        dsimp only
        rw [hterm]
      | none =>
        dsimp only
        rw [hterm]
  | succ k ih =>
    intro first acc b fuel bk hc hterm hrej hfuel
    rw [chainBlocks] at hc
    cases hnx : getNext m b.id d with
    | none => rw [hnx] at hc; simp at hc
    | some b2 =>
      rw [hnx, Option.some_bind] at hc
      cases fuel with
      | zero => omega
      | succ f =>
        have hrej2 : ∀ j bj s2, j ≤ k → chainBlocks m d b2 j = some bj →
            signalsGet m bj.id d = some s2 →
            j = 0 ∧ false = true ∧
              ¬ d.applySign (s2.position.offset_m - so) > 0 := by
          intro j bj s2 hj hcj hsj
          have := hrej (j + 1) bj s2 (by omega)
            (by rw [chainBlocks, hnx, Option.some_bind]; exact hcj) hsj
          exact absurd this.1 (Nat.succ_ne_zero j)
        rw [lookupSignalGo]
        cases hsg : signalsGet m b.id d with
        | some s0 =>
          obtain ⟨_, hfirst, hneg⟩ := hrej 0 b s0 (Nat.zero_le _) rfl hsg
          dsimp only
          rw [if_neg (by push_neg; exact ⟨hfirst, not_lt.mp hneg⟩)]
          dsimp only
          rw [hnx]
          exact ih false (acc + b.length_m) b2 f bk hc hterm hrej2 (by omega)
        | none =>
          dsimp only
          rw [hnx]
          exact ih false (acc + b.length_m) b2 f bk hc hterm hrej2 (by omega)

/-- Claim C4, counterexample: looking up the next `Even` signal from
`(B3, 1450)` — past S1, with the graph ending after B3 (the source's own
`find_signal_even_same_block_behind` test input).  The claim says the lookup
returns none; the code's walk runs off the end of the track and panics — the
embedded call produces the panic marker, not an absent value. -/
theorem claimC4_counterexample :
    lookupSignal trackMap ⟨3, 1450⟩ .Even 10 = some .panicked := by
  norm_num +decide [lookupSignal, lookupSignalGo, getNext, signalsGet,
    getBlockById, svGet, svGetItemIndex, chunksSearch, trackMap, sigS1, sigS2,
    Direction.applySign, List.find?]

set_option maxHeartbeats 1600000 in
/-- Claim C4 (amended): `lookup_signal(P, D)` returns the nearest signal
facing D strictly ahead of P (a signal at exactly P's offset facing D counts
as behind) together with the exact track distance — soundness is proved for
every map; when the walk terminates before reaching any such signal the call
panics instead of returning an absent value; on the concrete track the
lookup from `(B1, 200)` Even returns S1 with distance 2700, from
`(B3, 1100)` Odd returns S2 with distance 2350, and from `(B3, 1400)` Even
(the exact offset of S1) it finds no signal ahead and panics. -/
theorem claimC4_lookup_amended :
    (∀ (m : BlockMap) (start : TrackPoint) (d : Direction) (fuel : ℕ)
      (b0 : Block) (s : TrackSignal) (dist : ℚ),
      getBlockById m start.block_id = some b0 →
      lookupSignal m start d fuel = some (.found s dist) →
      ∃ k bk L, chainBlocks m d b0 k = some bk ∧
        signalsGet m bk.id d = some s ∧ chainLenSum m d b0 k = some L ∧
        dist = L + sigAhead d bk s -
          (if d = .Even then start.offset_m else b0.length_m - start.offset_m) ∧
        (k = 0 → d.applySign (s.position.offset_m - start.offset_m) > 0) ∧
        (∀ j bj s2, j < k → chainBlocks m d b0 j = some bj →
          signalsGet m bj.id d = some s2 →
          j = 0 ∧ ¬ d.applySign (s2.position.offset_m - start.offset_m) > 0)) ∧
    (∀ (m : BlockMap) (start : TrackPoint) (d : Direction) (fuel k : ℕ)
      (b0 bk : Block),
      getBlockById m start.block_id = some b0 →
      chainBlocks m d b0 k = some bk → getNext m bk.id d = none →
      (∀ j bj s2, j ≤ k → chainBlocks m d b0 j = some bj →
        signalsGet m bj.id d = some s2 →
        j = 0 ∧ ¬ d.applySign (s2.position.offset_m - start.offset_m) > 0) →
      k < fuel →
      lookupSignal m start d fuel = some .panicked) ∧
    lookupSignal trackMap ⟨1, 200⟩ .Even 10 = some (.found sigS1 2700) ∧
    lookupSignal trackMap ⟨3, 1100⟩ .Odd 10 = some (.found sigS2 2350) ∧
    lookupSignal trackMap ⟨3, 1400⟩ .Even 10 = some .panicked := by
  refine ⟨?_, ?_, ?_, ?_, ?_⟩
  · intro m start d fuel b0 s dist hb0 hfound
    rw [lookupSignal, hb0, Option.some_bind] at hfound
    obtain ⟨k, bk, L, hchain, hsig, hlen, hdist, hzero, hnoe⟩ :=
      lookupGo_found_sound m d start.offset_m fuel true _ b0 s dist hfound
    refine ⟨k, bk, L, hchain, hsig, hlen, by rw [hdist]; ring, ?_, ?_⟩
    · intro hk
      exact hzero hk rfl
    · intro j bj s2 hj hcj hsj
      obtain ⟨hj0, _, hneg⟩ := hnoe j bj s2 hj hcj hsj
      exact ⟨hj0, hneg⟩
  · intro m start d fuel k b0 bk hb0 hchain hterm hrej hfuel
    rw [lookupSignal, hb0, Option.some_bind]
    exact lookupGo_panics m d start.offset_m k true _ b0 fuel bk hchain hterm
      (fun j bj s2 hj hcj hsj =>
        ⟨(hrej j bj s2 hj hcj hsj).1, rfl, (hrej j bj s2 hj hcj hsj).2⟩)
      hfuel
  · norm_num +decide [lookupSignal, lookupSignalGo, getNext, signalsGet,
      getBlockById, svGet, svGetItemIndex, chunksSearch, trackMap, sigS1,
      sigS2, Direction.applySign, List.find?]
  · norm_num +decide [lookupSignal, lookupSignalGo, getNext, signalsGet,
      getBlockById, svGet, svGetItemIndex, chunksSearch, trackMap, sigS1,
      sigS2, Direction.applySign, List.find?]
  · norm_num +decide [lookupSignal, lookupSignalGo, getNext, signalsGet,
      getBlockById, svGet, svGetItemIndex, chunksSearch, trackMap, sigS1,
      sigS2, Direction.applySign, List.find?]

/-- Claim C4, witness: the general soundness half applied at the concrete
found case from `(B1, 200)` Even. -/
theorem claimC4_lookup_amended_witness :
    getBlockById trackMap 1 =
      some { id := 1, length_m := 1000, lamp_id := 11, next := some 2 } ∧
    lookupSignal trackMap ⟨1, 200⟩ .Even 10 = some (.found sigS1 2700) ∧
    (∃ k bk L, chainBlocks trackMap .Even
        { id := 1, length_m := 1000, lamp_id := 11, next := some 2 } k =
          some bk ∧
      signalsGet trackMap bk.id .Even = some sigS1 ∧
      chainLenSum trackMap .Even
        { id := 1, length_m := 1000, lamp_id := 11, next := some 2 } k =
          some L ∧
      (2700 : ℚ) = L + sigAhead .Even bk sigS1 -
        (if Direction.Even = .Even then (200 : ℚ) else 1000 - 200) ∧
      (k = 0 →
        Direction.applySign .Even (sigS1.position.offset_m - 200) > 0) ∧
      (∀ j bj s2, j < k →
        chainBlocks trackMap .Even
          { id := 1, length_m := 1000, lamp_id := 11, next := some 2 } j =
            some bj →
        signalsGet trackMap bj.id .Even = some s2 →
        j = 0 ∧
          ¬ Direction.applySign .Even (s2.position.offset_m - 200) > 0)) := by
  have hb : getBlockById trackMap 1 =
      some { id := 1, length_m := 1000, lamp_id := 11, next := some 2 } := by
    norm_num +decide [getBlockById, svGet, svGetItemIndex, chunksSearch,
      trackMap]
  have hfound : lookupSignal trackMap ⟨1, 200⟩ .Even 10 =
      some (.found sigS1 2700) := by
    norm_num +decide [lookupSignal, lookupSignalGo, getNext, signalsGet,
      getBlockById, svGet, svGetItemIndex, chunksSearch, trackMap, sigS1,
      sigS2, Direction.applySign, List.find?]
  exact ⟨hb, hfound,
    claimC4_lookup_amended.1 trackMap ⟨1, 200⟩ .Even 10 _ sigS1 2700 hb hfound⟩

/-! ## Block updates, lamp updates and `process_updates` (`messages.rs`,
`block.rs`) -/

/-- `BlockUpdateState` from `messages.rs`. -/
inductive BlockUpdateState where
  | Occupied
  | Freed
deriving DecidableEq, Repr

/-- `impl Not for BlockUpdateState` from `messages.rs`. -/
def negBlockState : BlockUpdateState → BlockUpdateState
  | .Occupied => .Freed
  | .Freed => .Occupied

/-- `BlockUpdate` from `messages.rs`. -/
structure BlockUpdateMsg where
  block_id : ℕ
  train_id : ℕ
  state : BlockUpdateState
deriving DecidableEq, Repr

/-- `LampUpdateState` from `messages.rs`. -/
inductive LampUpdateState where
  | On
  | Off
  | Pending
deriving DecidableEq, Repr

/-- `LampUpdate` from `messages.rs`. -/
structure LampUpdateMsg where
  lamp_id : ℕ
  state : LampUpdateState
deriving DecidableEq, Repr

/-- `LampUpdate::from_block_state`: `Occupied → On`, `Freed → Off`. -/
def lampFromBlockState (st : BlockUpdateState) (lamp_id : ℕ) : LampUpdateMsg :=
  match st with
  | .Occupied => ⟨lamp_id, .On⟩
  | .Freed => ⟨lamp_id, .Off⟩

/-- The `find_map` of `find_affected_signals`: starting from a block, walk
(`length = ∞`) and return the first signal keyed with the reverse of the walk
direction on a following block.  The source walks from `block.middle()` and
`skip(1)`s the block's own far point, so the search starts at the successor
block; it panics when the walk ends (modelled as no signal found) and loops
forever on a signal-less cycle (fuel exhaustion, also `none`). -/
def findNearestGo (m : BlockMap) (wd : Direction) : ℕ → Block → Option TrackSignal
  | 0, _ => none
  | fuel + 1, b =>
    match getNext m b.id wd with
    | none => none
    | some b2 =>
      match signalsGet m b2.id wd.reverse with
      | some s => some s
      | none => findNearestGo m wd fuel b2

/-- The loop of `BlockMap::is_signal_free`: walk from the signal's position
in its direction, `skip(1)`, `take_while_inclusive` until the first block
carrying a same-direction signal, and require every visited block free.  The
`all` short-circuits on an occupied block; the source panics when the walk
ends first (modelled `none`). -/
def isSignalFreeGo (m : BlockMap) (d : Direction) : ℕ → ℕ → Option Bool
  | 0, _ => none
  | fuel + 1, bid =>
    match getNext m bid d with
    | none => none
    | some b1 =>
      if (signalsGet m b1.id d).isSome then some (isBlockFree m.tracker b1.id)
      else if isBlockFree m.tracker b1.id then isSignalFreeGo m d fuel b1.id
      else some false

/-- `BlockMap::is_signal_free`. -/
def isSignalFree (m : BlockMap) (s : TrackSignal) (fuel : ℕ) : Option Bool :=
  isSignalFreeGo m s.direction fuel s.position.block_id

/-- `BlockMap::find_affected_signals`: for each of the two directions, the
nearest signal governing traffic into the block; for a `Freed` change only
signals whose guarded chain is free are kept. -/
def findAffectedSignals (m : BlockMap) (blk : Block) (st : BlockUpdateState)
    (fuel : ℕ) : List TrackSignal :=
  ([Direction.Even, Direction.Odd].filterMap
      fun wd => findNearestGo m wd fuel blk).filter
    fun s => decide (st = .Occupied) || (isSignalFree m s fuel).getD false

/-- One iteration of the `for_each` in `BlockMap::process_updates`: apply the
occupancy change; when it is a transition, emit the block's lamp update
followed by, for each affected signal, a lamp update of the opposite
polarity (`!u.state`).  The source `.unwrap`s the block lookup; a missing
block id is modelled as emitting nothing. -/
def processOneUpdate (fuel : ℕ) (st : BlockMap × List LampUpdateMsg)
    (u : BlockUpdateMsg) : BlockMap × List LampUpdateMsg :=
  let m0 := st.1
  let res :=
    match u.state with
    | .Occupied => setOccupied m0.tracker u.block_id u.train_id
    | .Freed => setFreed m0.tracker u.block_id u.train_id
  let m1 : BlockMap :=
    { chunks := m0.chunks, blocks := m0.blocks, signals := m0.signals,
      tracker := res.1 }
  if ¬ res.2 then (m1, st.2)
  else
    match getBlockById m1 u.block_id with
    | none => (m1, st.2)
    | some blk =>
      (m1, st.2 ++ lampFromBlockState u.state blk.lamp_id ::
        (findAffectedSignals m1 blk u.state fuel).map
          fun s => lampFromBlockState (negBlockState u.state) s.lamp_id)

/-- `BlockMap::process_updates` over a batch of block updates. -/
def processUpdates (m : BlockMap) (updates : List BlockUpdateMsg)
    (fuel : ℕ) : BlockMap × List LampUpdateMsg :=
  updates.foldl (processOneUpdate fuel) (m, [])

/-! ### The spec's propagation scenario on a cyclic four-block track

Four 500 m blocks in a ring (the source's `build_track_extended` layout),
an `Even` signal at offset 490 and an `Odd` signal at offset 10 on every
block; block `i` has lamp `i`, signal `id` has lamp `100 + id`. -/

def extBlocks : List Block :=
  [{ id := 1, length_m := 500, lamp_id := 1, prev := some 4, next := some 2 },
   { id := 2, length_m := 500, lamp_id := 2, prev := some 1, next := some 3 },
   { id := 3, length_m := 500, lamp_id := 3, prev := some 2, next := some 4 },
   { id := 4, length_m := 500, lamp_id := 4, prev := some 3, next := some 1 }]

def sigE (i : ℕ) : TrackSignal :=
  { id := 2 * i - 1, position := ⟨i, 490⟩, lamp_id := 100 + (2 * i - 1),
    direction := .Even, name := "", speed_ctrl := ⟨80⟩ }

def sigO (i : ℕ) : TrackSignal :=
  { id := 2 * i, position := ⟨i, 10⟩, lamp_id := 100 + 2 * i,
    direction := .Odd, name := "", speed_ctrl := ⟨80⟩ }

def extMap : BlockMap :=
  { chunks := [⟨1, 0⟩], blocks := extBlocks,
    signals :=
      [((1, .Even), sigE 1), ((1, .Odd), sigO 1),
       ((2, .Even), sigE 2), ((2, .Odd), sigO 2),
       ((3, .Even), sigE 3), ((3, .Odd), sigO 3),
       ((4, .Even), sigE 4), ((4, .Odd), sigO 4)],
    tracker := (setOccupied (setOccupied emptyTracker 3 9).1 2 8).1 }

/-- Shape of the lamp batch emitted for a single block update: either no
transition (no lamps) or the block's own lamp followed by the affected
signals' lamps of the opposite polarity. -/
theorem processOne_split (m : BlockMap) (u : BlockUpdateMsg) (fuel : ℕ) :
    (processUpdates m [u] fuel).2 = [] ∨
    ∃ (blk : Block) (sigs : List TrackSignal),
      (processUpdates m [u] fuel).2 =
        lampFromBlockState u.state blk.lamp_id ::
          sigs.map fun s => lampFromBlockState (negBlockState u.state) s.lamp_id := by
  rw [processUpdates, List.foldl_cons, List.foldl_nil, processOneUpdate]
  by_cases hch : ¬ (match u.state with
      | .Occupied => setOccupied m.tracker u.block_id u.train_id
      | .Freed => setFreed m.tracker u.block_id u.train_id).2
  · rw [if_pos hch]
    exact Or.inl rfl
  · rw [if_neg hch]
    cases hblk : getBlockById
        { chunks := m.chunks, blocks := m.blocks, signals := m.signals,
          tracker := (match u.state with
            | .Occupied => setOccupied m.tracker u.block_id u.train_id
            | .Freed => setFreed m.tracker u.block_id u.train_id).1 }
        u.block_id with
    | none => exact Or.inl rfl
    | some blk =>
      refine Or.inr ⟨blk, findAffectedSignals
        { chunks := m.chunks, blocks := m.blocks, signals := m.signals,
          tracker := (match u.state with
            | .Occupied => setOccupied m.tracker u.block_id u.train_id
            | .Freed => setFreed m.tracker u.block_id u.train_id).1 }
        blk u.state fuel, ?_⟩
      dsimp only
      rw [List.nil_append]

/-- Claim C2, counterexample: on the cyclic four-block track, block 3 is
occupied (train 9) and block 2, also occupied (train 8), becomes free.  The
governing `Even` signal of block 2 is `sigE 1` (lamp 101) and its next
forward signal `sigE 2` guards the occupied block 3, so by the claim
`sigE 1` must be recomputed to `Restricting` with its lamp reported
`Pending`; the code instead reports lamp `On` (and no `Pending` lamp update
exists in the batch): there is no aspect state or chaining in this signal
layer. -/
theorem claimC2_counterexample :
    isBlockFree extMap.tracker 3 = false ∧
    signalsGet extMap 2 .Even = some (sigE 2) ∧
    (processUpdates extMap [⟨2, 8, .Freed⟩] 10).2 =
      [⟨2, .Off⟩, ⟨106, .On⟩, ⟨101, .On⟩] ∧
    LampUpdateMsg.mk 101 .Pending ∉
      (processUpdates extMap [⟨2, 8, .Freed⟩] 10).2 := by
  have heval : (processUpdates extMap [⟨2, 8, .Freed⟩] 10).2 =
      [⟨2, .Off⟩, ⟨106, .On⟩, ⟨101, .On⟩] := by
    norm_num +decide [processUpdates, processOneUpdate, List.foldl,
      setOccupied, setFreed, emptyTracker, isBlockFree, insertSet,
      findAffectedSignals, findNearestGo, isSignalFreeGo, isSignalFree,
      signalsGet, getNext, getBlockById, svGet, svGetItemIndex, chunksSearch,
      extMap, extBlocks, sigE, sigO, lampFromBlockState, negBlockState,
      List.find?, List.filterMap, List.filter, Direction.reverse]
  refine ⟨?_, ?_, heval, ?_⟩
  · norm_num +decide [isBlockFree, setOccupied, setFreed, emptyTracker,
      insertSet, extMap]
  · norm_num +decide [signalsGet, extMap, List.find?, sigE, sigO]
  · rw [heval]
    decide

/-- Claim C2 (amended): the signal layer of this iteration keeps no aspect
state and performs no chaining from the forward signal.  For every processed
block update that is a transition: the block's own lamp is reported `On` on
`Occupied` and `Off` on `Freed` (the head of the batch), and each affected
signal's lamp is reported with the opposite polarity — `Off` when the
guarded block became occupied, `On` when it became free (and the signal's
guarded chain is free, otherwise the signal is dropped from the batch).  A
`Pending` lamp state is never emitted by this path. -/
theorem claimC2_amended :
    (∀ (m : BlockMap) (u : BlockUpdateMsg) (fuel : ℕ),
      ∀ l ∈ (processUpdates m [u] fuel).2, l.state ≠ .Pending) ∧
    (∀ (m : BlockMap) (u : BlockUpdateMsg) (fuel : ℕ),
      ∀ l ∈ ((processUpdates m [u] fuel).2).tail,
        l.state = (match u.state with
          | .Occupied => LampUpdateState.Off
          | .Freed => LampUpdateState.On)) ∧
    (∀ (m : BlockMap) (u : BlockUpdateMsg) (fuel : ℕ),
      ∀ l ∈ ((processUpdates m [u] fuel).2).take 1,
        l.state = (match u.state with
          | .Occupied => LampUpdateState.On
          | .Freed => LampUpdateState.Off)) := by
  refine ⟨?_, ?_, ?_⟩
  · intro m u fuel l hl
    rcases processOne_split m u fuel with hnil | ⟨blk, sigs, hcons⟩
    · rw [hnil] at hl
      simp at hl
    · rw [hcons] at hl
      rcases List.mem_cons.mp hl with rfl | htl
      · cases u.state <;> simp [lampFromBlockState]
      · obtain ⟨s, _, rfl⟩ := List.mem_map.mp htl
        cases u.state <;> simp [lampFromBlockState, negBlockState]
  · intro m u fuel l hl
    rcases processOne_split m u fuel with hnil | ⟨blk, sigs, hcons⟩
    · rw [hnil] at hl
      simp at hl
    · rw [hcons] at hl
      simp only [List.tail_cons] at hl
      obtain ⟨s, _, rfl⟩ := List.mem_map.mp hl
      cases u.state <;> simp [lampFromBlockState, negBlockState]
  · intro m u fuel l hl
    rcases processOne_split m u fuel with hnil | ⟨blk, sigs, hcons⟩
    · rw [hnil] at hl
      simp at hl
    · rw [hcons] at hl
      rw [show (1 : ℕ) = 0 + 1 from rfl, List.take_succ_cons,
        List.take_zero, List.mem_singleton] at hl
      subst hl
      cases u.state <;> simp [lampFromBlockState]

/-- Claim C2, witness: the no-`Pending` half applied to a lamp update
actually emitted in the counterexample scenario. -/
theorem claimC2_amended_witness :
    LampUpdateMsg.mk 101 .On ∈ (processUpdates extMap [⟨2, 8, .Freed⟩] 10).2 ∧
    (LampUpdateMsg.mk 101 .On).state ≠ .Pending := by
  have heval : (processUpdates extMap [⟨2, 8, .Freed⟩] 10).2 =
      [⟨2, .Off⟩, ⟨106, .On⟩, ⟨101, .On⟩] := by
    norm_num +decide [processUpdates, processOneUpdate, List.foldl,
      setOccupied, setFreed, emptyTracker, isBlockFree, insertSet,
      findAffectedSignals, findNearestGo, isSignalFreeGo, isSignalFree,
      signalsGet, getNext, getBlockById, svGet, svGetItemIndex, chunksSearch,
      extMap, extBlocks, sigE, sigO, lampFromBlockState, negBlockState,
      List.find?, List.filterMap, List.filter, Direction.reverse]
  have hmem : LampUpdateMsg.mk 101 .On ∈
      (processUpdates extMap [⟨2, 8, .Freed⟩] 10).2 := by
    rw [heval]
    decide
  exact ⟨hmem, claimC2_amended.1 extMap ⟨2, 8, .Freed⟩ 10 _ hmem⟩

/-! ## Speed limits, aspects (`signal.rs`) and train dynamics (`train.rs`)

The train-side `BlockMap` iteration (`lookup_signal_forward`, `step_by` on
it) is not under `src/`; `Train::update` receives those two map functions as
oracle parameters so that everything written in `train.rs` itself is
embedded verbatim. -/

/-- `SpeedLimit` from `signal.rs`. -/
inductive SpeedLimit where
  | unrestricted
  | restricted (kmh : ℚ)
deriving DecidableEq, Repr

/-- `SpeedLimit::apply_limit`: cap a limit by the train's own top speed. -/
def SpeedLimit.applyLimit : SpeedLimit → ℚ → ℚ
  | .unrestricted, limit_kmh => limit_kmh
  | .restricted v, limit_kmh => min v limit_kmh

/-- `SignalAspect` from `signal.rs`. -/
inductive SignalAspect where
  | Unrestricting
  | Restricting
  | Forbidding
deriving DecidableEq, Repr

/-- `SignalAspect::chain` from `signal.rs`. -/
def SignalAspect.chain : SignalAspect → SignalAspect
  | .Unrestricting | .Restricting => .Unrestricting
  | .Forbidding => .Restricting

/-- `SpeedControl` from `signal.rs` (aspect plus the two speed limits). -/
structure SpeedControl where
  aspect : SignalAspect
  passing_kmh : SpeedLimit
  approaching_kmh : SpeedLimit
deriving DecidableEq, Repr

/-- `SpeedControl::default_for_aspect` from `signal.rs`. -/
def SpeedControl.defaultForAspect : SignalAspect → SpeedControl
  | .Unrestricting => ⟨.Unrestricting, .unrestricted, .unrestricted⟩
  | .Restricting => ⟨.Restricting, .restricted 40, .unrestricted⟩
  | .Forbidding => ⟨.Forbidding, .restricted 0, .restricted 40⟩

/-- `Speeds` from `signal.rs`. -/
structure Speeds where
  passing_kmh : ℚ
  approaching_kmh : ℚ
deriving DecidableEq, Repr

/-- `SpeedControl::apply_limit` from `signal.rs`. -/
def SpeedControl.applyLimit (c : SpeedControl) (limit_kmh : ℚ) : Speeds :=
  ⟨c.passing_kmh.applyLimit limit_kmh, c.approaching_kmh.applyLimit limit_kmh⟩

/-- `LampUpdate::from_signal_aspect` from `messages.rs` (the only producer
of a `Pending` lamp state; nothing under `src/` calls it). -/
def lampFromSignalAspect (aspect : SignalAspect) (lamp_id : ℕ) : LampUpdateMsg :=
  ⟨lamp_id, match aspect with
    | .Unrestricting => .On
    | .Restricting => .Pending
    | .Forbidding => .Off⟩

/-- `SpeedConv::mps` from `common.rs`: km/h to m/s. -/
def mpsQ (kmh : ℚ) : ℚ := kmh / 3.6

/-- `f64::clamp` (for values with `lo ≤ hi`). -/
def clampQ (x lo hi : ℚ) : ℚ := min (max x lo) hi

/-- `TrainControls` from `train.rs`. -/
structure TrainControls where
  throttle : ℚ
  brake_level : ℚ
deriving DecidableEq, Repr

/-- `VehicleType` from `train.rs`. -/
inductive VehicleType where
  | Locomotive
  | RailCar
deriving DecidableEq, Repr

/-- `RailVehicle` from `train.rs`. -/
structure RailVehicle where
  vehicle_type : VehicleType
  mass_kg : ℚ
  length_m : ℚ
  max_braking_force_n : ℚ
  cargo_mass_kg : ℚ
  power_w : ℚ
  max_tractive_effort_n : ℚ
deriving DecidableEq, Repr

/-- `RailVehicle::get_tractive_effort`: power-limited effort with the
low-speed branch avoiding the singularity. -/
def getTractiveEffort (v : RailVehicle) (speed_mps throttle : ℚ) : ℚ :=
  match v.vehicle_type with
  | .Locomotive =>
    let max_tractive := v.max_tractive_effort_n * throttle
    if speed_mps < 0.01 then max_tractive
    else min (v.power_w * throttle / speed_mps) max_tractive
  | .RailCar => 0

/-- `TrainStats` from `train.rs`. -/
structure TrainStats where
  length_m : ℚ
  mass_kg : ℚ
  max_braking_force_n : ℚ
deriving DecidableEq, Repr

/-- `Train` from `train.rs` (the simulation-relevant fields). -/
structure Train where
  id : ℕ
  number : String
  controls : TrainControls
  top_speed_kmh : ℚ
  speed_mps : ℚ
  target_speed_mps : ℚ
  target_speed_margin_mps : ℚ
  direction : Direction
  vehicles : List RailVehicle
  stats : TrainStats
  front_position : TrackPoint
  back_position : TrackPoint
deriving DecidableEq, Repr

/-- `Train::calculate_controls` from `train.rs`, clause by clause. -/
def calculateControls (t : Train) : TrainControls :=
  let speed_diff := (t.target_speed_mps - t.target_speed_margin_mps) - t.speed_mps
  if t.speed_mps < 0.001 ∧ t.target_speed_mps < 0.01 then ⟨0, 1⟩
  else if speed_diff < 0.01 then ⟨0, clampQ (|speed_diff| / 2) 0 1⟩
  else if speed_diff > 0.01 then ⟨1, 0⟩
  else ⟨0, 0⟩

/-- `Train::get_braking_distance` from `train.rs`; `None` for an unbounded
limit. -/
def getBrakingDistance (t : Train) (limit : SpeedLimit) (safety : ℚ) :
    Option ℚ :=
  match limit with
  | .unrestricted => none
  | .restricted kmh =>
    let target := mpsQ kmh
    let decel := t.stats.max_braking_force_n * safety / t.stats.mass_kg
    some (max 0 ((t.speed_mps - target) * (t.speed_mps + target) / (2 * decel)))

/-- The `normal_target` selection inside `Train::update`: approaching limit
when slowdown is needed (`distance > braking_distance` with the current
target at least the approaching velocity) **or** the signal is further than
`braking_distance + 200 m`; otherwise the passing limit. -/
def normalTargetKmh (speeds : Speeds) (distance bd target_speed_mps : ℚ) : ℚ :=
  if (distance > bd ∧ target_speed_mps ≥ mpsQ speeds.approaching_kmh) ∨
      distance > bd + 200
  then speeds.approaching_kmh else speeds.passing_kmh

/-- The per-tick target-speed selection of `Train::update` (`train.rs` lines
231–274), as a function of the forward-signal lookup result: no signal →
20 km/h; unbounded passing limit → approaching limit; otherwise the
`normal_target` above, overridden to creep speed (20 km/h) or the passing
limit by the two-phase stop when the normal target commits to stopping at
low speed. -/
def computeTargetSpeedMps (t : Train) (lookup : Option (SpeedControl × ℚ)) :
    ℚ :=
  match lookup with
  | none => mpsQ 20
  | some (ctrl, distance) =>
    let speeds := ctrl.applyLimit t.top_speed_kmh
    match getBrakingDistance t ctrl.passing_kmh 0.8 with
    | none => mpsQ speeds.approaching_kmh
    | some bd =>
      let normal := normalTargetKmh speeds distance bd t.target_speed_mps
      mpsQ (if normal < 0.1 ∧ t.speed_mps ≤ mpsQ 20 then
          if distance > (getBrakingDistance t ctrl.passing_kmh 1.0).getD 0 + 50
          then 20 else speeds.passing_kmh
        else normal)

/-- `Train::update` (`train.rs` lines 198–292).  `lookup` and `step` are the
oracle parameters standing for `map.lookup_signal_forward` and
`map.step_by` (their `BlockMap` iteration is not under `src/`);
`marginRand` is the `rand::random::<f64>()` sample used by
`set_target_speed_mps` (margin `rand · 0.5 + 0.35`). -/
def trainUpdate (lookup : TrackPoint → Direction → Option (SpeedControl × ℚ))
    (step : TrackPoint → ℚ → Direction → TrackPoint)
    (marginRand : ℚ) (t : Train) (dt : ℚ) : Train × List BlockUpdateMsg :=
  if dt ≤ 0 then (t, [])
  else
    let controls := calculateControls t
    let tractive :=
      (t.vehicles.map fun v => getTractiveEffort v t.speed_mps controls.throttle).sum
    let braking := t.stats.max_braking_force_n * controls.brake_level
    let net := tractive - braking
    let accel := if t.stats.mass_kg > 0 then net / t.stats.mass_kg else 0
    let speed1 := t.speed_mps + accel * dt
    let stopped := speed1 < 0.1 ∧ t.target_speed_mps < 0.25
    let speed2 := if stopped then 0 else speed1
    let accel2 : ℚ := if stopped then 0 else accel
    let dx := speed2 * dt + 1/2 * accel2 * dt ^ 2
    let t1 := { t with controls := controls, speed_mps := speed2 }
    let targetNew := computeTargetSpeedMps t1 (lookup t.front_position t.direction)
    let t2 := if t.target_speed_mps ≠ targetNew then
        { t1 with
            target_speed_mps := targetNew,
            target_speed_margin_mps := marginRand * (1/2) + 7/20 }
      else t1
    if dx > 0 then
      let new_front := step t.front_position dx t.direction
      let msgs1 := if t.front_position.block_id ≠ new_front.block_id then
          [BlockUpdateMsg.mk new_front.block_id t.id .Occupied] else []
      let new_back := step t.front_position t.stats.length_m t.direction.reverse
      let msgs2 := if t.back_position.block_id ≠ new_back.block_id then
          [BlockUpdateMsg.mk t.back_position.block_id t.id .Freed] else []
      ({ t2 with front_position := new_front, back_position := new_back }, msgs1 ++ msgs2)
    else (t2, [])

/-! ### Claims C6, C9 — Train::update -/

/-- A zero-mass train (empty vehicle list) standing still with target 0. -/
def trainC9 : Train :=
  { id := 1, number := "", controls := ⟨0, 0⟩, top_speed_kmh := 80,
    speed_mps := 0, target_speed_mps := 0, target_speed_margin_mps := 0,
    direction := .Even, vehicles := [], stats := ⟨0, 0, 0⟩,
    front_position := ⟨1, 0⟩, back_position := ⟨1, 0⟩ }

/-- A 100 t train at 15 m/s whose current target (5 m/s) is below the
approaching limit. -/
def trainC6 : Train :=
  { id := 2, number := "", controls := ⟨0, 0⟩, top_speed_kmh := 80,
    speed_mps := 15, target_speed_mps := 5, target_speed_margin_mps := 0,
    direction := .Even, vehicles := [], stats := ⟨0, 100000, 50000⟩,
    front_position := ⟨1, 0⟩, back_position := ⟨1, 0⟩ }

/-- Helper: outside the two-phase creep override, the bounded-passing target
is exactly the `normal_target` selection. -/
theorem computeTarget_eq_normal (t : Train) (ctrl : SpeedControl)
    (distance bd : ℚ)
    (hbd : getBrakingDistance t ctrl.passing_kmh 0.8 = some bd)
    (hnc : ¬ (normalTargetKmh (ctrl.applyLimit t.top_speed_kmh) distance bd
        t.target_speed_mps < 0.1 ∧ t.speed_mps ≤ mpsQ 20)) :
    computeTargetSpeedMps t (some (ctrl, distance)) =
      mpsQ (normalTargetKmh (ctrl.applyLimit t.top_speed_kmh) distance bd
        t.target_speed_mps) := by
  rw [computeTargetSpeedMps]
  dsimp only
  rw [hbd]
  dsimp only
  rw [if_neg hnc]

/-- Claim C6, counterexample: a signal with bounded passing limit 0
(Forbidding defaults) 800 m ahead, braking distance 281.25 m, current
target 5 m/s strictly below the approaching velocity (100/9 m/s) — the
claim's first case does not apply, so the claim requires the passing limit
(0); the code takes the `distance > braking_distance + 200` branch and
returns the approaching limit (40 km/h) instead. -/
theorem claimC6_counterexample :
    getBrakingDistance trainC6 (SpeedLimit.restricted 0) 0.8 =
      some (1125/4) ∧
    trainC6.target_speed_mps < mpsQ 40 ∧
    computeTargetSpeedMps trainC6
      (some (SpeedControl.defaultForAspect .Forbidding, 800)) = mpsQ 40 ∧
    mpsQ 40 ≠ mpsQ 0 := by
  refine ⟨?_, ?_, ?_, ?_⟩ <;>
    norm_num [getBrakingDistance, computeTargetSpeedMps, normalTargetKmh,
      SpeedControl.defaultForAspect, SpeedControl.applyLimit,
      SpeedLimit.applyLimit, mpsQ, trainC6]

/-- Claim C6 (amended): in the bounded-passing case, outside the two-phase
creep override, the new target is the approaching limit when
`distance > braking_distance` and the current target is at least the
approaching velocity **or** when `distance > braking_distance + 200 m`, and
the passing limit only otherwise (`normalTargetKmh`); in particular the
claim's first case holds as stated; and with no forward signal the target
is 20 km/h. -/
theorem claimC6_amended :
    (∀ (t : Train) (ctrl : SpeedControl) (distance bd : ℚ),
      getBrakingDistance t ctrl.passing_kmh 0.8 = some bd →
      ¬ (normalTargetKmh (ctrl.applyLimit t.top_speed_kmh) distance bd
          t.target_speed_mps < 0.1 ∧ t.speed_mps ≤ mpsQ 20) →
      computeTargetSpeedMps t (some (ctrl, distance)) =
        mpsQ (normalTargetKmh (ctrl.applyLimit t.top_speed_kmh) distance bd
          t.target_speed_mps)) ∧
    (∀ (t : Train) (ctrl : SpeedControl) (distance bd : ℚ),
      getBrakingDistance t ctrl.passing_kmh 0.8 = some bd →
      ¬ (normalTargetKmh (ctrl.applyLimit t.top_speed_kmh) distance bd
          t.target_speed_mps < 0.1 ∧ t.speed_mps ≤ mpsQ 20) →
      distance > bd →
      t.target_speed_mps ≥ mpsQ (ctrl.applyLimit t.top_speed_kmh).approaching_kmh →
      computeTargetSpeedMps t (some (ctrl, distance)) =
        mpsQ (ctrl.applyLimit t.top_speed_kmh).approaching_kmh) ∧
    (∀ t : Train, computeTargetSpeedMps t none = mpsQ 20) := by
  refine ⟨computeTarget_eq_normal, ?_, fun _ => rfl⟩
  intro t ctrl distance bd hbd hnc hdist htgt
  rw [computeTarget_eq_normal t ctrl distance bd hbd hnc]
  rw [normalTargetKmh, if_pos (Or.inl ⟨hdist, htgt⟩)]

/-- Claim C6, witness: the amended selection applied at the counterexample's
concrete inputs (where it selects the approaching limit, 40 km/h). -/
theorem claimC6_amended_witness :
    getBrakingDistance trainC6
      (SpeedControl.defaultForAspect .Forbidding).passing_kmh 0.8 =
        some (1125/4) ∧
    ¬ (normalTargetKmh
        ((SpeedControl.defaultForAspect .Forbidding).applyLimit
          trainC6.top_speed_kmh) 800 (1125/4) trainC6.target_speed_mps < 0.1 ∧
      trainC6.speed_mps ≤ mpsQ 20) ∧
    computeTargetSpeedMps trainC6
      (some (SpeedControl.defaultForAspect .Forbidding, 800)) =
      mpsQ (normalTargetKmh
        ((SpeedControl.defaultForAspect .Forbidding).applyLimit
          trainC6.top_speed_kmh) 800 (1125/4) trainC6.target_speed_mps) := by
  have hbd : getBrakingDistance trainC6
      (SpeedControl.defaultForAspect .Forbidding).passing_kmh 0.8 =
        some (1125/4) := by
    norm_num [getBrakingDistance, SpeedControl.defaultForAspect, mpsQ,
      trainC6]
  have hnc : ¬ (normalTargetKmh
      ((SpeedControl.defaultForAspect .Forbidding).applyLimit
        trainC6.top_speed_kmh) 800 (1125/4) trainC6.target_speed_mps < 0.1 ∧
      trainC6.speed_mps ≤ mpsQ 20) := by
    norm_num [normalTargetKmh, SpeedControl.defaultForAspect,
      SpeedControl.applyLimit, SpeedLimit.applyLimit, mpsQ, trainC6]
  exact ⟨hbd, hnc,
    claimC6_amended.1 trainC6 (SpeedControl.defaultForAspect .Forbidding)
      800 (1125/4) hbd hnc⟩

/-- Claim C9, counterexample: a zero-mass train with a positive time step —
`Train::update` does not return early: its controls change to full brake and
its target speed is recomputed (no forward signal → 20 km/h), refuting the
claimed "early return without mutating any train state" for zero mass. -/
theorem claimC9_counterexample :
    (trainUpdate (fun _ _ => none) (fun p _ _ => p) 0 trainC9 1).1.controls.brake_level = 1 ∧
    trainC9.controls.brake_level = 0 ∧
    (trainUpdate (fun _ _ => none) (fun p _ _ => p) 0 trainC9 1).1.target_speed_mps = mpsQ 20 ∧
    trainC9.target_speed_mps = 0 ∧ mpsQ 20 ≠ 0 := by
  refine ⟨?_, rfl, ?_, rfl, by norm_num [mpsQ]⟩ <;>
    norm_num [trainUpdate, calculateControls, computeTargetSpeedMps,
      clampQ, mpsQ, trainC9]

/-- Claim C9 (amended): `Train::update` with `dt ≤ 0` returns early with no
state change and no block updates; zero total mass does **not** cause an
early return — the acceleration falls back to 0 (speed changes only through
the sub-threshold stop clamp) while the controls are still recomputed (and
the rest of the update proceeds). -/
theorem claimC9_amended :
    (∀ (lookup : TrackPoint → Direction → Option (SpeedControl × ℚ))
      (step : TrackPoint → ℚ → Direction → TrackPoint)
      (marginRand : ℚ) (t : Train) (dt : ℚ), dt ≤ 0 →
      trainUpdate lookup step marginRand t dt = (t, [])) ∧
    (∀ (lookup : TrackPoint → Direction → Option (SpeedControl × ℚ))
      (step : TrackPoint → ℚ → Direction → TrackPoint)
      (marginRand : ℚ) (t : Train) (dt : ℚ), t.stats.mass_kg = 0 → 0 < dt →
      (trainUpdate lookup step marginRand t dt).1.controls =
        calculateControls t ∧
      (trainUpdate lookup step marginRand t dt).1.speed_mps =
        (if t.speed_mps < 0.1 ∧ t.target_speed_mps < 0.25 then 0
          else t.speed_mps)) := by
  constructor
  · intro lookup step marginRand t dt h
    rw [trainUpdate, if_pos h]
  · intro lookup step marginRand t dt hm hdt
    rw [trainUpdate, if_neg (not_le.mpr hdt)]
    dsimp only
    rw [hm, if_neg (lt_irrefl (0 : ℚ)), zero_mul, add_zero]
    constructor
    · split_ifs <;> rfl
    · split_ifs <;> rfl

/-- Claim C9, witness: both amended halves applied at concrete inputs — a
negative time step leaves the zero-mass train untouched, a positive one
recomputes its controls. -/
theorem claimC9_amended_witness :
    ((-1 : ℚ) ≤ 0 ∧
      trainUpdate (fun _ _ => none) (fun p _ _ => p) 0 trainC9 (-1) =
        (trainC9, [])) ∧
    (trainC9.stats.mass_kg = 0 ∧ (0 : ℚ) < 1 ∧
      (trainUpdate (fun _ _ => none) (fun p _ _ => p) 0 trainC9 1).1.controls =
        calculateControls trainC9) :=
  ⟨⟨by norm_num,
      claimC9_amended.1 (fun _ _ => none) (fun p _ _ => p) 0 trainC9 (-1)
        (by norm_num)⟩,
    ⟨rfl, by norm_num,
      (claimC9_amended.2 (fun _ _ => none) (fun p _ _ => p) 0 trainC9 1 rfl
        (by norm_num)).1⟩⟩
